import Mathlib

/-!
# Verification of the good-saves form-automation pipeline

Shallow embedding of the repository's core logic and proofs of the spec's
testable properties.  The embedded code comes from `src/form_handler.py`
(`FormHandler.get_attrs`, `set_new_url`, `append_url_query`,
`fetch_dynamic_values`, `submit_form`), `src/cookie_handler.py`
(`CookieHandler.parse_and_set_cookies`), and `src/http_client.py`
(`HeaderManager.get_random_headers` / `save_recent_headers`); `src/main.py`
carries near-duplicate copies of the same functions.

Modelling conventions:

* Python dicts become ordered association lists with insert-or-replace
  assignment (`upsert`), matching dict insertion-order semantics.
* BeautifulSoup documents become an abstract `Doc` record supplying the only
  queries the code performs (`find` by attribute set, `find_all`, and the
  document's text nodes for the cookie scan).  An element (`Elem`) carries its
  string attributes, its (multi-valued) `class` attribute, its children
  (`contents`), its next sibling and its parent's next sibling, each sibling
  being either a text node or an element, exactly the one-hop navigations the
  scraper performs.
* Exceptions that abort the scrape (`KeyError`, `IndexError`,
  `AttributeError`, `TypeError`, JSON decode errors) become the
  `ScrapeStructuralError` result; the spec's `ScrapeLookupMiss` is the
  non-raising logged skip.
* The `json` library calls (`json.loads`, `json.dumps`, `json.dump`) are
  modelled by the executable printer/parser below over the JSON fragment
  without floats (ints, strings, booleans, null, arrays, objects).  The
  parser keeps object members as parsed (no duplicate-key collapsing); the
  payloads the program prints are built by dict assignment and so never
  carry duplicate keys.
* `random.choice` draws become an explicit input stream of candidates.
* Logging is modelled as an accumulated list of tagged messages.
-/

/-! ## Ordered dictionaries (Python `dict` semantics) -/

/-- Log messages, tagged by level; payload is the key or fixed tag logged. -/
inductive LogMsg where
  | warn (tag : String)
  | info (tag : String)
deriving DecidableEq, Repr

/-- Dict assignment `d[k] = v`: replace in place if the key exists, else
append, preserving insertion order. -/
def upsert {α : Type} : List (String × α) → String → α → List (String × α)
  | [], k, v => [(k, v)]
  | (k', v') :: t, k, v =>
      if k' = k then (k, v) :: t else (k', v') :: upsert t k v

/-- The key sequence of an association list. -/
def keysOf {α : Type} (l : List (String × α)) : List String :=
  l.map (·.1)

/-- Dict lookup `d.get(k)`. -/
def lookupA {α : Type} (l : List (String × α)) (k : String) : Option α :=
  (l.find? (·.1 = k)).map (·.2)

/-! ## Header rotation (`src/http_client.py`, `HeaderManager`)

`get_random_headers` draws candidates via `random.choice(self.headers_list)`
until one is truthy (a non-empty dict) and not contained in the loaded
`recent_headers` list, then `save_recent_headers` pushes it on the front of
the recency list and truncates it to 3 entries.  The random draws are
modelled as an explicit stream; `none` is returned when the stream runs out
(the Python loop would keep drawing). -/

/-- A header set: a mapping of header names to values. -/
abbrev Headers := List (String × String)

/-- The `save_recent_headers` update: push the choice, keep the latest 3. -/
def save_recent_headers (recent : List Headers) (h : Headers) : List Headers :=
  (h :: recent).take 3

/-- The `get_random_headers` rejection loop over a stream of random draws:
skip a draw while it is falsy (empty dict) or occurs in `recent`. -/
def get_random_headers (recent : List Headers) :
    List Headers → Option (Headers × List Headers)
  | [] => none
  | d :: draws =>
      if d ≠ [] ∧ d ∉ recent then some (d, save_recent_headers recent d)
      else get_random_headers recent draws

/-! ## Cookie extraction (`src/cookie_handler.py`, `parse_and_set_cookies`)

`soup.find(string=re.compile("Helper.setCookie"))` returns the first text
node whose text matches the marker regex (`.` matches any character except a
newline); then `re.search` applies the fixed pattern
`Helper\.setCookie\("([^"]+)",\s*"([^"]+)",\s*(true|false)\)` to that node.
Every operation in the Python body is total, so the function is modelled as
a total function returning the extracted cookie (if any) and the log. -/

/-- Does the marker regex `Helper.setCookie` match at the head of `l`?
The `.` is the regex wildcard (anything but a newline). -/
def markerAt : List Char → Bool
  | 'H' :: 'e' :: 'l' :: 'p' :: 'e' :: 'r' :: c ::
    's' :: 'e' :: 't' :: 'C' :: 'o' :: 'o' :: 'k' :: 'i' :: 'e' :: _ =>
      c ≠ '\n'
  | _ => false

/-- Regex search for the marker: does it match at any position? -/
def markerSearch : List Char → Bool
  | [] => false
  | c :: t => markerAt (c :: t) || markerSearch t

/-- Marker match on a text node. -/
def markerMatches (s : String) : Bool :=
  markerSearch s.data

/-- Whitespace class `\s` of the cookie regex. -/
def isReWs (c : Char) : Bool :=
  c = ' ' || c = '\t' || c = '\n' || c = '\r' ||
  c = Char.ofNat 12 || c = Char.ofNat 11

/-- Expect a literal character sequence; return the remainder. -/
def expectLit : List Char → List Char → Option (List Char)
  | [], l => some l
  | e :: es, c :: l => if c = e then expectLit es l else none
  | _ :: _, [] => none

/-- Match `([^"]+)"`: one or more non-quote characters up to a closing
quote; return the captured characters and the remainder after the quote. -/
def takeStr1 (l : List Char) : Option (List Char × List Char) :=
  match l.takeWhile (· ≠ '"'), l.dropWhile (· ≠ '"') with
  | [], _ => none
  | s, '"' :: r => some (s, r)
  | _, _ => none

/-- Match the full cookie pattern anchored at the current position. -/
def tryPattern (l : List Char) : Option (String × String) := do
  let l ← expectLit "Helper.setCookie(\"".data l
  let (name, l) ← takeStr1 l
  let l ← expectLit ",".data l
  let l := l.dropWhile isReWs
  let l ← expectLit "\"".data l
  let (value, l) ← takeStr1 l
  let l ← expectLit ",".data l
  let l := l.dropWhile isReWs
  let l ←
    match expectLit "true".data l with
    | some r => some r
    | none => expectLit "false".data l
  let _ ← expectLit ")".data l
  return (⟨name⟩, ⟨value⟩)

/-- The `re.search` of the cookie pattern: leftmost position at which the
pattern matches. -/
def searchPattern : List Char → Option (String × String)
  | [] => none
  | c :: t =>
      match tryPattern (c :: t) with
      | some r => some r
      | none => searchPattern t

/-- The embedded `parse_and_set_cookies`: scan the document's text nodes
for the first marker match, apply the pattern to that node only, and either
install the cookie (returned as `some (name, value)`) or log a warning and
return without a cookie.  No branch raises. -/
def parse_and_set_cookies (texts : List String) :
    Option (String × String) × List LogMsg :=
  match texts.find? markerMatches with
  | some node =>
      match searchPattern node.data with
      | some (n, v) =>
          (some (n, v), [.info "js-cookie-found", .info "new-cookie-set"])
      | none =>
          (none, [.info "js-cookie-found", .warn "no-cookie-pattern"])
  | none => (none, [.warn "no-setCookie-script"])

/-! ## JSON values (model of the `json` library on the float-free fragment) -/

/-- JSON values: the fragment of JSON without floating-point numbers. -/
inductive Json where
  | null
  | bool (b : Bool)
  | num (n : Int)
  | str (s : String)
  | arr (elems : List Json)
  | obj (members : List (String × Json))
deriving Repr

/-- JSON whitespace (the characters `json.loads` skips between tokens). -/
def isJWs (c : Char) : Bool :=
  c = ' ' || c = '\t' || c = '\n' || c = '\r'

/-- Skip JSON whitespace. -/
def skipWs (l : List Char) : List Char :=
  l.dropWhile isJWs

/-- Decimal digits of a natural number, most significant first (accumulator
form). -/
def natToCharsAux : Nat → List Char → List Char
  | n, acc =>
      if h : n < 10 then Nat.digitChar n :: acc
      else natToCharsAux (n / 10) (Nat.digitChar (n % 10) :: acc)
termination_by n _ => n
decreasing_by exact Nat.div_lt_self (by omega) (by omega)

/-- Decimal digits of a natural number, most significant first. -/
def natToChars (n : Nat) : List Char :=
  natToCharsAux n []

/-- Decimal digits of an integer (Python `repr` of an `int`). -/
def intChars (n : Int) : List Char :=
  if n < 0 then '-' :: natToChars n.natAbs else natToChars n.toNat

/-- Numeric value of a list of decimal digit characters. -/
def digitsVal (l : List Char) : Nat :=
  l.foldl (fun a c => a * 10 + (c.toNat - 48)) 0

/-- Lower-case hexadecimal digit character for `n < 16`. -/
def hexDigitChar (n : Nat) : Char :=
  if n < 10 then Char.ofNat (48 + n) else Char.ofNat (87 + n)

/-- Value of a hex digit character, upper or lower case. -/
def hexVal (c : Char) : Option Nat :=
  if c.isDigit then some (c.toNat - 48)
  else if 'a' ≤ c ∧ c ≤ 'f' then some (c.toNat - 87)
  else if 'A' ≤ c ∧ c ≤ 'F' then some (c.toNat - 55)
  else none

/-- The escape of one character, as the `json` serializer emits it with
`ensure_ascii=False`: quote, backslash and the named control escapes get
two-character escapes, remaining control characters get `\u00XX`, everything
else is emitted raw. -/
def escChar (c : Char) : List Char :=
  if c = '"' then ['\\', '"']
  else if c = '\\' then ['\\', '\\']
  else if c = '\n' then ['\\', 'n']
  else if c = '\t' then ['\\', 't']
  else if c = '\r' then ['\\', 'r']
  else if c = Char.ofNat 8 then ['\\', 'b']
  else if c = Char.ofNat 12 then ['\\', 'f']
  else if c.toNat < 32 then
    ['\\', 'u', '0', '0', hexDigitChar (c.toNat / 16), hexDigitChar (c.toNat % 16)]
  else [c]

/-- Escape a whole string body. -/
def escapeChars (l : List Char) : List Char :=
  l.foldr (fun c acc => escChar c ++ acc) []

/-- Map a string-escape letter to the character it denotes. -/
def unescape1 (c : Char) : Option Char :=
  if c = '"' then some '"'
  else if c = '\\' then some '\\'
  else if c = '/' then some '/'
  else if c = 'n' then some '\n'
  else if c = 't' then some '\t'
  else if c = 'r' then some '\r'
  else if c = 'b' then some (Char.ofNat 8)
  else if c = 'f' then some (Char.ofNat 12)
  else none

/-- Parse a JSON string body after the opening quote, through the closing
quote; returns the decoded characters and the remainder. -/
def parseStrBody : List Char → Option (List Char × List Char)
  | [] => none
  | c :: l =>
      if c = '"' then some ([], l)
      else if c = '\\' then
        match l with
        | [] => none
        | e :: l' =>
            if e = 'u' then
              match l' with
              | h1 :: h2 :: h3 :: h4 :: l2 =>
                  match hexVal h1, hexVal h2, hexVal h3, hexVal h4 with
                  | some a, some b, some c2, some d2 =>
                      match parseStrBody l2 with
                      | some (s, r) =>
                          some (Char.ofNat (((a * 16 + b) * 16 + c2) * 16 + d2) :: s, r)
                      | none => none
                  | _, _, _, _ => none
              | _ => none
            else
              match unescape1 e with
              | some u =>
                  match parseStrBody l' with
                  | some (s, r) => some (u :: s, r)
                  | none => none
              | none => none
      else
        match parseStrBody l with
        | some (s, r) => some (c :: s, r)
        | none => none

/-- Serializer whitespace configuration: `nl lvl` is the (whitespace-only)
separator emitted after a `[`/`{`/`,` at nesting level `lvl`, `kvs` the
whitespace after a member colon.  `json.dumps(separators=(",", ":"))` uses
no whitespace; `json.dump(indent=4)` uses newline-plus-indent and one
space. -/
structure PCfg where
  nl : Nat → List Char
  kvs : List Char

/-- The compact configuration of `json.dumps(separators=(",", ":"))`. -/
def compactCfg : PCfg :=
  ⟨fun _ => [], []⟩

/-- The configuration of `json.dump(..., indent=4)`. -/
def prettyCfg : PCfg :=
  ⟨fun lvl => '\n' :: List.replicate (4 * lvl) ' ', [' ']⟩

mutual

/-- Serialize a JSON value at nesting depth `d` (the depth drives only the
indentation of the whitespace configuration). -/
def printVal (cfg : PCfg) (d : Nat) : Json → List Char
  | .null => 'n' :: ['u', 'l', 'l']
  | .bool true => 't' :: ['r', 'u', 'e']
  | .bool false => 'f' :: ['a', 'l', 's', 'e']
  | .num n => intChars n
  | .str s => '"' :: (escapeChars s.data ++ ['"'])
  | .arr [] => ['[', ']']
  | .arr (e :: es) => '[' :: (cfg.nl (d + 1) ++ printElemsTail cfg (d + 1) e es)
  | .obj [] => ['{', '}']
  | .obj (m :: ms) => '{' :: (cfg.nl (d + 1) ++ printMembsTail cfg (d + 1) m ms)
termination_by j => sizeOf j
decreasing_by all_goals (simp_wf; try omega)

/-- Serialize the elements of a non-empty array, including the closing
bracket. -/
def printElemsTail (cfg : PCfg) (d : Nat) (e : Json) : List Json → List Char
  | [] => printVal cfg d e ++ (cfg.nl (d - 1) ++ [']'])
  | e2 :: es => printVal cfg d e ++ (',' :: (cfg.nl d ++ printElemsTail cfg d e2 es))
termination_by es => sizeOf e + sizeOf es
decreasing_by all_goals (simp_wf; try omega)

/-- Serialize one object member. -/
def printMemb (cfg : PCfg) (d : Nat) : String × Json → List Char
  | (k, v) => '"' :: (escapeChars k.data ++ ('"' :: ':' :: (cfg.kvs ++ printVal cfg d v)))
termination_by m => sizeOf m
decreasing_by all_goals (simp_wf; try omega)

/-- Serialize the members of a non-empty object, including the closing
brace. -/
def printMembsTail (cfg : PCfg) (d : Nat) (m : String × Json) :
    List (String × Json) → List Char
  | [] => printMemb cfg d m ++ (cfg.nl (d - 1) ++ ['}'])
  | m2 :: ms => printMemb cfg d m ++ (',' :: (cfg.nl d ++ printMembsTail cfg d m2 ms))
termination_by ms => sizeOf m + sizeOf ms
decreasing_by all_goals (simp_wf; try omega)

end

mutual

/-- Parser fuel sufficient for one value (one unit per parser call). -/
def fuelJ : Json → Nat
  | .arr [] => 1
  | .arr (e :: es) => 1 + fuelEs e es
  | .obj [] => 1
  | .obj (m :: ms) => 1 + fuelMs m ms
  | _ => 1
termination_by j => sizeOf j
decreasing_by all_goals (simp_wf; try omega)

/-- Parser fuel sufficient for a non-empty element list. -/
def fuelEs (e : Json) : List Json → Nat
  | [] => 1 + fuelJ e
  | e2 :: es => 1 + fuelJ e + fuelEs e2 es
termination_by es => sizeOf e + sizeOf es
decreasing_by all_goals (simp_wf; try omega)

/-- Parser fuel sufficient for a non-empty member list. -/
def fuelMs : String × Json → List (String × Json) → Nat
  | (k, v), [] => 1 + fuelJ v
  | (k, v), m2 :: ms => 1 + fuelJ v + fuelMs m2 ms
termination_by m ms => sizeOf m + sizeOf ms
decreasing_by all_goals (simp_wf; try omega)

end

mutual

/-- Fuel-indexed JSON value parser (the model of `json.loads`). -/
def parseVal : Nat → List Char → Option (Json × List Char)
  | 0, _ => none
  | f + 1, cs =>
      match skipWs cs with
      | [] => none
      | c :: r =>
          if c = '"' then
            match parseStrBody r with
            | some (s, r1) => some (.str ⟨s⟩, r1)
            | none => none
          else if c = '[' then
            let r1 := skipWs r
            if r1.head? = some ']' then some (.arr [], r1.tail)
            else
              match parseElems f r1 with
              | some (es, r2) => some (.arr es, r2)
              | none => none
          else if c = '{' then
            let r1 := skipWs r
            if r1.head? = some '}' then some (.obj [], r1.tail)
            else
              match parseMembs f r1 with
              | some (ms, r2) => some (.obj ms, r2)
              | none => none
          else if c = 't' then
            match expectLit ['r', 'u', 'e'] r with
            | some r1 => some (.bool true, r1)
            | none => none
          else if c = 'f' then
            match expectLit ['a', 'l', 's', 'e'] r with
            | some r1 => some (.bool false, r1)
            | none => none
          else if c = 'n' then
            match expectLit ['u', 'l', 'l'] r with
            | some r1 => some (.null, r1)
            | none => none
          else if c = '-' then
            match r with
            | [] => none
            | d0 :: _ =>
                if d0.isDigit then
                  some (.num (-(digitsVal (r.takeWhile Char.isDigit) : Int)),
                        r.dropWhile Char.isDigit)
                else none
          else if c.isDigit then
            some (.num (digitsVal ((c :: r).takeWhile Char.isDigit)),
                  (c :: r).dropWhile Char.isDigit)
          else none

/-- Parse the elements of a non-empty array, consuming the closing
bracket. -/
def parseElems : Nat → List Char → Option (List Json × List Char)
  | 0, _ => none
  | f + 1, cs =>
      match parseVal f cs with
      | none => none
      | some (j, r) =>
          let r1 := skipWs r
          if r1.head? = some ',' then
            match parseElems f r1.tail with
            | some (es, r2) => some (j :: es, r2)
            | none => none
          else if r1.head? = some ']' then some ([j], r1.tail)
          else none

/-- Parse the members of a non-empty object, consuming the closing brace. -/
def parseMembs : Nat → List Char → Option (List (String × Json) × List Char)
  | 0, _ => none
  | f + 1, cs =>
      match skipWs cs with
      | [] => none
      | c :: r =>
          if c = '"' then
            match parseStrBody r with
            | none => none
            | some (k, r1) =>
                match skipWs r1 with
                | [] => none
                | c2 :: r2 =>
                    if c2 = ':' then
                      match parseVal f r2 with
                      | none => none
                      | some (v, r3) =>
                          let r4 := skipWs r3
                          if r4.head? = some ',' then
                            match parseMembs f r4.tail with
                            | some (ms, r5) => some ((⟨k⟩, v) :: ms, r5)
                            | none => none
                          else if r4.head? = some '}' then
                            some ([(⟨k⟩, v)], r4.tail)
                          else none
                    else none
          else none

end

/-- Top-level JSON parse (the model of `json.loads` / `json.load`): parse
one value with input-derived fuel and require only trailing whitespace. -/
def parseTop (s : String) : Option Json :=
  match parseVal (2 * s.data.length + 2) s.data with
  | some (j, r) => if skipWs r = [] then some j else none
  | none => none

/-- The model of `json.dumps(x, separators=(",", ":"))`. -/
def jsonDumpsCompact (j : Json) : String :=
  ⟨printVal compactCfg 0 j⟩

/-- The model of `json.dump(x, file, ensure_ascii=False, indent=4)`
followed by `json.load` of the same file: the file's contents. -/
def jsonDumpPretty4 (j : Json) : String :=
  ⟨printVal prettyCfg 0 j⟩

/-- Whitespace-only character lists (printer separators). -/
def wsOnly (w : List Char) : Prop :=
  ∀ c ∈ w, isJWs c = true

/-- Inputs that may legally follow a printed JSON value: end of input,
whitespace, or a closing delimiter (keeps the maximal-munch number parser
from running into the continuation). -/
def JDelim : List Char → Prop
  | [] => True
  | c :: _ => isJWs c = true ∨ c = ',' ∨ c = ']' ∨ c = '}'

/-! ## DOM model

An element carries exactly what the scraper navigates to: its string-valued
attributes, its multi-valued `class` attribute (BeautifulSoup returns the
class list), its children (`tag.contents`), its next sibling and its
parent's next sibling.  Sibling/child positions may be text nodes
(`NavigableString`), modelled by the left summand.  A document supplies the
three queries the code performs: `soup.find(attrs=...)`,
`soup.find_all(attrs=...)` and the text nodes scanned by the cookie
extractor. -/

/-- An HTML element (a BeautifulSoup `Tag`). -/
inductive Elem where
  | mk (attrs : List (String × String)) (classes : Option (List String))
       (contents : List (String ⊕ Elem)) (nextSib : Option (String ⊕ Elem))
       (parentNextSib : Option (String ⊕ Elem))

/-- Attribute list of an element. -/
def Elem.attrs : Elem → List (String × String)
  | .mk a _ _ _ _ => a

/-- Class list of an element (`none` when the `class` attribute is absent). -/
def Elem.classes : Elem → Option (List String)
  | .mk _ c _ _ _ => c

/-- The `tag.contents` child list. -/
def Elem.contents : Elem → List (String ⊕ Elem)
  | .mk _ _ c _ _ => c

/-- The `tag.next_sibling` navigation. -/
def Elem.nextSib : Elem → Option (String ⊕ Elem)
  | .mk _ _ _ n _ => n

/-- The `tag.parent.next_sibling` navigation. -/
def Elem.parentNextSib : Elem → Option (String ⊕ Elem)
  | .mk _ _ _ _ p => p

/-- Attribute access returning `None` when absent. -/
def Elem.getAttr (e : Elem) (k : String) : Option String :=
  lookupA e.attrs k

/-- The `tag.get(k, dflt)` access. -/
def Elem.getD (e : Elem) (k dflt : String) : String :=
  (e.getAttr k).getD dflt

/-- The `tag.has_attr(k)` test. -/
def Elem.hasAttr (e : Elem) (k : String) : Bool :=
  (e.getAttr k).isSome

/-- Fatal scrape errors: the Python exceptions that abort
`fetch_dynamic_values` (the spec's `ScrapeStructuralError`). -/
inductive ScrapeStructuralError where
  | keyError (k : String)
  | indexError
  | attrError
  | typeError
  | jsonError
deriving DecidableEq, Repr

/-- The `tag[k]` access: `KeyError` when the attribute is absent. -/
def Elem.reqAttr (e : Elem) (k : String) : Except ScrapeStructuralError String :=
  match e.getAttr k with
  | some v => .ok v
  | none => .error (.keyError k)

/-- The `x.get(k, dflt)` access through a navigation result: `None` and
text nodes have no `get`, raising `AttributeError`. -/
def nodeGetD : Option (String ⊕ Elem) → String → String →
    Except ScrapeStructuralError String
  | none, _, _ => .error .attrError
  | some (.inl _), _, _ => .error .attrError
  | some (.inr e), k, dflt => .ok (e.getD k dflt)

/-- A parsed document: the attribute queries and text scan the scraper
uses. -/
structure Doc where
  find : List (String × String) → Option Elem
  findAll : List (String × String) → List Elem
  texts : List String

/-- One `DATA_PARAMS` entry: the parallel `attrs` and `query` lists. -/
structure FieldParam where
  attrs : List String
  query : List String
deriving DecidableEq, Repr

/-- The embedded `FormHandler.get_attrs`: zip the two lists (the Python
`zip` stops at the shorter list). -/
def get_attrs (p : FieldParam) : List (String × String) :=
  p.attrs.zip p.query

/-! ## URL helpers (`urlparse` / `parse_qs` on the needed fragment) -/

/-- Percent-plus decoding of `urllib.parse.unquote_plus` (ASCII bytes;
invalid escapes kept verbatim). -/
def pctDecode : List Char → List Char
  | [] => []
  | '%' :: h1 :: h2 :: t =>
      match hexVal h1, hexVal h2 with
      | some a, some b => Char.ofNat (a * 16 + b) :: pctDecode t
      | _, _ => '%' :: pctDecode (h1 :: (h2 :: t))
  | '+' :: t => ' ' :: pctDecode t
  | c :: t => c :: pctDecode t

/-- String form of the percent-plus decoder. -/
def unquotePlus (s : String) : String :=
  ⟨pctDecode s.data⟩

/-- Single-character `String.splitOn` on a character list: the chunks
between every occurrence of `c` (always at least one chunk). -/
def splitOnChar (c : Char) : List Char → List (List Char)
  | [] => [[]]
  | a :: rest =>
      if a = c then [] :: splitOnChar c rest
      else
        match splitOnChar c rest with
        | [] => [[a]]
        | g :: gs => (a :: g) :: gs

/-- Split a character list at the first occurrence of `c`: `none` when `c`
does not occur (the `s.split(c, 1)` idiom of `str.partition`). -/
def breakAtChar (c : Char) : List Char → Option (List Char × List Char)
  | [] => none
  | a :: rest =>
      if a = c then some ([], rest)
      else (breakAtChar c rest).map fun pr => (a :: pr.1, pr.2)

/-- Split a character list at the first occurrence of `://` (the
scheme/netloc separator `urlparse` looks for). -/
def breakAtScheme : List Char → Option (List Char × List Char)
  | [] => none
  | ':' :: '/' :: '/' :: rest => some ([], rest)
  | a :: rest => (breakAtScheme rest).map fun pr => (a :: pr.1, pr.2)

/-- Append one `name=value` pair to a `parse_qs` accumulator (repeated
names extend the value list). -/
def addQsPair (acc : List (String × List String)) (kv : String × String) :
    List (String × List String) :=
  match lookupA acc kv.1 with
  | some vs => upsert acc kv.1 (vs ++ [kv.2])
  | none => acc ++ [(kv.1, [kv.2])]

/-- The embedded `urllib.parse.parse_qs` with default options: split on
`&`, split each field at the first `=`, drop fields with no `=` or an empty
value, percent-plus decode, and collect values per name in order. -/
def parse_qs (q : String) : List (String × List String) :=
  ((splitOnChar '&' q.data).filterMap fun part =>
      match breakAtChar '=' part with
      | none => none
      | some (name, value) =>
          if value = [] then none
          else some (unquotePlus ⟨name⟩, unquotePlus ⟨value⟩)).foldl addQsPair []

/-- Path component of a URL: strip the fragment and query, then any
`scheme://netloc` head (the `urlparse(...).path` the code reads). -/
def urlPathOf (pre : String) : String :=
  match breakAtScheme pre.data with
  | none => pre
  | some pr =>
      match breakAtChar '/' pr.2 with
      | none => ""
      | some pr2 => "/" ++ (⟨pr2.2⟩ : String)

/-- Query component of a URL: after the first `?`, with any fragment
stripped first (the `urlparse(...).query` the code reads). -/
def urlQueryOf (noFrag : String) : String :=
  match breakAtChar '?' noFrag.data with
  | none => ""
  | some pr => ⟨pr.2⟩

/-! ## The form scraper (`FormHandler.fetch_dynamic_values`) -/

/-- Handler/scraper state: the handler's mutable `path` and `query_params`
plus the local `data` (wire payload) and `fr_data` (form-state snapshot)
dicts and the log. -/
structure FHState where
  path : String
  query : List (String × List String)
  data : List (String × Json)
  frData : List (String × Json)
  log : List LogMsg

/-- The `BASE_RESPONSE.get(key, dflt)` access. -/
def brGetD (br : List (String × Json)) (k : String) (dflt : Json) : Json :=
  (lookupA br k).getD dflt

/-- Python subscript `x[i]` on a JSON value: list indexing, or 1-character
string indexing; anything else is a fatal type confusion. -/
def jsonIndex : Json → Nat → Except ScrapeStructuralError Json
  | .arr es, i =>
      match es.get? i with
      | some e => .ok e
      | none => .error .indexError
  | .str s, i =>
      match s.data.get? i with
      | some c => .ok (.str ⟨[c]⟩)
      | none => .error .indexError
  | _, _ => .error .typeError

/-- The keys dispatched to the composite-default branch. -/
def compositeKeys : List String :=
  ["Project", "Location", "Good Save Type", "Good Save Category",
   "Good Save Classification", "Risk Category", "jquery"]

/-- The two keys excluded from the form-state snapshot (but kept in the
wire payload). -/
def snapshotExcludedKeys : List String :=
  ["CSRFToken", "fr_fupUniqueId"]

/-- The embedded `append_url_query`: install the three fixed staging
query parameters. -/
def append_url_query (tag : Elem) (q : List (String × List String)) :
    List (String × List String) :=
  upsert (upsert (upsert q "qs_actionMode" [tag.getD "value" ""])
      "qs_template" ["stage"]) "rq_xhr" ["31"]

/-- The embedded `set_new_url`: rewrite the pending path and query from the
element's `action` URL (`urlparse` of a missing attribute raises). -/
def set_new_url (tag : Elem) (st : FHState) :
    Except ScrapeStructuralError FHState :=
  match tag.getAttr "action" with
  | none => .error .typeError
  | some action =>
      let noFrag : String := ⟨(splitOnChar '#' action.data).headD []⟩
      .ok { st with path := urlPathOf ⟨(splitOnChar '?' noFrag.data).headD []⟩,
                    query := parse_qs (urlQueryOf noFrag) }

/-- Composite-default branch of `fetch_dynamic_values` (the seven
`compositeKeys`): resolve the primary value (nested child for a named
`Project`, next sibling for `jquery`, `BASE_RESPONSE` otherwise), store it
under the element's `name`, then piggyback the parent's next sibling when
it is an element carrying a `name` attribute (a truthy text sibling has no
`has_attr` and raises). -/
def processComposite (br : List (String × Json)) (key : String) (tag : Elem)
    (st : FHState) : Except ScrapeStructuralError FHState := do
  let value ←
    if key = "Project" ∧ tag.hasAttr "name" then
      match tag.contents.get? 1 with
      | none => Except.error .indexError
      | some (.inl _) => Except.error .attrError
      | some (.inr e) => Except.ok (Json.str (e.getD "value" ""))
    else if key = "jquery" then
      (nodeGetD tag.nextSib "value" "").map Json.str
    else
      Except.ok (brGetD br key (Json.str ""))
  let name ← tag.reqAttr "name"
  let st := { st with data := upsert st.data name (.arr [value]),
                      frData := upsert st.frData name value }
  match tag.parentNextSib with
  | none => .ok st
  | some (.inl s) => if s = "" then .ok st else .error .attrError
  | some (.inr sib) =>
      match sib.getAttr "name" with
      | some sn =>
          .ok { st with
                  data := upsert st.data sn (.arr [.str (sib.getD "value" "")]),
                  frData := upsert st.frData sn (.str (sib.getD "value" "")) }
      | none => .ok st

/-- The positional loop of the repeated-control branch: element `i` takes
`BASE_RESPONSE["upTextareaControl"][i]`. -/
def processTextareasGo (brv : Json) : List Elem → Nat → FHState →
    Except ScrapeStructuralError FHState
  | [], _, st => .ok st
  | ta :: rest, i, st => do
      let value ← jsonIndex brv i
      let name ← ta.reqAttr "name"
      processTextareasGo brv rest (i + 1)
        { st with data := upsert st.data name (.arr [value]),
                  frData := upsert st.frData name value }

/-- Repeated-control branch: `find_all` the matching elements and zip them
positionally against the Base Response sequence (a missing
`BASE_RESPONSE` key is a `KeyError`). -/
def processTextareas (br : List (String × Json)) (tas : List Elem)
    (st : FHState) : Except ScrapeStructuralError FHState :=
  match lookupA br "upTextareaControl" with
  | none => .error (.keyError "upTextareaControl")
  | some brv => processTextareasGo brv tas 0 st

/-- Action-identifier branch: augment the query parameters, then record the
element's own value. -/
def processActionId (tag : Elem) (st : FHState) :
    Except ScrapeStructuralError FHState := do
  let q := append_url_query tag st.query
  let value := tag.getD "value" ""
  let name ← tag.reqAttr "name"
  .ok { st with query := q,
                data := upsert st.data name (.arr [.str value]),
                frData := upsert st.frData name (.str value) }

/-- Form-state branch: store the raw attribute value in the wire payload
and its parsed JSON in the snapshot (an absent value or malformed JSON is
fatal; the name lookup raises first, as in the Python statement order). -/
def processFormState (tag : Elem) (st : FHState) :
    Except ScrapeStructuralError FHState := do
  let name ← tag.reqAttr "name"
  match tag.getAttr "value" with
  | none => .error .typeError
  | some v =>
      match parseTop v with
      | none => .error .jsonError
      | some jv =>
          .ok { st with data := upsert st.data name (.arr [.str v]),
                        frData := upsert st.frData name jv }

/-- Submitted-by branch: Base Response value with a fixed fallback. -/
def processSubmittedBy (br : List (String × Json)) (tag : Elem)
    (st : FHState) : Except ScrapeStructuralError FHState := do
  let value := brGetD br "Submitted By" (Json.str "Default User")
  let name ← tag.reqAttr "name"
  .ok { st with data := upsert st.data name (.arr [value]),
                frData := upsert st.frData name value }

/-- The `tag.get("class", "")[0][5:]` expression: first class with a fixed
5-character prefix stripped; an absent `class` or empty class list indexes
an empty sequence and raises `IndexError`. -/
def headerGuid (tag : Elem) : Except ScrapeStructuralError String :=
  match tag.classes with
  | none => .error .indexError
  | some [] => .error .indexError
  | some (c :: _) => .ok (c.drop 5)

/-- Header/container branch: harvest the three snapshot identifiers and
rewrite the pending request target from the `action` URL; no wire payload
entry is produced. -/
def processHeader (tag : Elem) (st : FHState) :
    Except ScrapeStructuralError FHState := do
  let guid ← headerGuid tag
  let frD := upsert st.frData "fr_formGuid" (.str guid)
  let frD := upsert frD "fr_formName" (.str (tag.getD "name" ""))
  let frD := upsert frD "fr_uniqueId" (.str (tag.getD "id" ""))
  set_new_url tag { st with frData := frD }

/-- Default branch: the element's own value goes to the wire payload, and
to the snapshot unless the key is one of the two excluded keys. -/
def processDefault (key : String) (tag : Elem) (st : FHState) :
    Except ScrapeStructuralError FHState := do
  let value := tag.getD "value" ""
  let name ← tag.reqAttr "name"
  let frD := if key ∈ snapshotExcludedKeys then st.frData
             else upsert st.frData name (.str value)
  .ok { st with data := upsert st.data name (.arr [.str value]), frData := frD }

/-- One iteration of the `fetch_dynamic_values` loop: locate the first
element matching the key's attribute query; a miss logs a warning and
skips the key; otherwise dispatch on key identity. -/
def processKey (doc : Doc) (br : List (String × Json)) (st : FHState)
    (entry : String × FieldParam) : Except ScrapeStructuralError FHState :=
  match doc.find (get_attrs entry.2) with
  | none => .ok { st with log := st.log ++ [.warn entry.1] }
  | some tag =>
      if entry.1 ∈ compositeKeys then processComposite br entry.1 tag st
      else if entry.1 = "upTextareaControl" then
        processTextareas br (doc.findAll (get_attrs entry.2)) st
      else if entry.1 = "fr_ActionId" then processActionId tag st
      else if entry.1 = "fr_formState" then processFormState tag st
      else if entry.1 = "Submitted By" then processSubmittedBy br tag st
      else if entry.1 = "Header_Container_AppMain" then processHeader tag st
      else processDefault entry.1 tag st

/-- The embedded `fetch_dynamic_values`: fold the key loop over
`DATA_PARAMS` from empty `data`/`fr_data` dicts, then store the compact
JSON dump of the snapshot (wrapped in a one-element list) under the
synthetic `fr_formData` payload key. -/
def fetch_dynamic_values (br : List (String × Json))
    (dataParams : List (String × FieldParam)) (doc : Doc)
    (path : String) (query : List (String × List String)) :
    Except ScrapeStructuralError FHState := do
  let st ← dataParams.foldlM (processKey doc br) ⟨path, query, [], [], []⟩
  .ok { st with data := upsert st.data "fr_formData"
                  (.arr [.str (jsonDumpsCompact (.arr [.obj st.frData]))]) }

/-! ## The pipeline driver (`FormHandler.submit_form`) -/

/-- HTTP failures surfaced by the client wrapper. -/
inductive HttpError where
  | statusError (code : Nat)
  | transportError
deriving DecidableEq, Repr

/-- A run failure: an HTTP error or a fatal scrape error. -/
inductive RunError where
  | http (e : HttpError)
  | scrape (e : ScrapeStructuralError)
deriving DecidableEq, Repr

/-- Observable pipeline effects, in order. -/
inductive RunAction where
  | getReq (path : String) (query : List (String × List String))
  | cookieScan
  | setCookie (n v : String)
  | scrapeStep
  | postReq (path : String) (data : List (String × Json))
      (query : List (String × List String))

/-- Is an action the POST submission? -/
def RunAction.isPost : RunAction → Bool
  | .postReq _ _ _ => true
  | _ => false

/-- Environment of one run: the outcomes the HTTP client would produce. -/
structure RunEnv where
  getResult : Except HttpError Doc
  postOk : Except HttpError Unit

/-- The `FormHandler` constructor state: `submit_form` reads `path` and
`query_params`; `test_mode` is stored by `__init__` but never read. -/
structure FormHandlerState where
  path : String
  query : List (String × List String)
  test_mode : Bool

/-- The embedded `submit_form`: GET, cookie extraction, scrape, then a POST
only when the module-level `TEST_MODE` configuration constant is false.
Returns the effect trace and the run outcome (`none` models the implicit
`None` return of the skipped-POST branch). -/
def submit_form (TEST_MODE : Bool) (br : List (String × Json))
    (dataParams : List (String × FieldParam)) (env : RunEnv)
    (st : FormHandlerState) : List RunAction × Except RunError (Option Unit) :=
  match env.getResult with
  | .error e => ([.getReq st.path st.query], .error (.http e))
  | .ok doc =>
      let ck := parse_and_set_cookies doc.texts
      let ckActs := match ck.1 with
        | some (n, v) => [RunAction.setCookie n v]
        | none => []
      let pre := RunAction.getReq st.path st.query :: RunAction.cookieScan ::
        (ckActs ++ [RunAction.scrapeStep])
      match fetch_dynamic_values br dataParams doc st.path st.query with
      | .error e => (pre, .error (.scrape e))
      | .ok fst =>
          if TEST_MODE then (pre, .ok none)
          else
            match env.postOk with
            | .error e =>
                (pre ++ [.postReq fst.path fst.data fst.query], .error (.http e))
            | .ok _ =>
                (pre ++ [.postReq fst.path fst.data fst.query], .ok (some ()))

/-! ## Name projections of the key loop

These record, per Field Specification entry, the wire-payload names and
snapshot names the successful processing of that entry assigns; they mirror
the branch structure of `processKey` and drive the key-set
characterization. -/

/-- The piggybacked sibling name of the composite branch, when present. -/
def sibNames (tag : Elem) : List String :=
  match tag.parentNextSib with
  | some (.inr sib) =>
      match sib.getAttr "name" with
      | some sn => [sn]
      | none => []
  | _ => []

/-- The wire-payload names one entry assigns on success. -/
def wireNames (doc : Doc) (entry : String × FieldParam) : List String :=
  match doc.find (get_attrs entry.2) with
  | none => []
  | some tag =>
      if entry.1 ∈ compositeKeys then
        (tag.getAttr "name").toList ++ sibNames tag
      else if entry.1 = "upTextareaControl" then
        (doc.findAll (get_attrs entry.2)).flatMap
          (fun ta => (ta.getAttr "name").toList)
      else if entry.1 = "Header_Container_AppMain" then []
      else (tag.getAttr "name").toList

/-- The three snapshot keys harvested by the header/container branch. -/
def headerNames : List String :=
  ["fr_formGuid", "fr_formName", "fr_uniqueId"]

/-- The snapshot names one entry assigns on success. -/
def snapNames (doc : Doc) (entry : String × FieldParam) : List String :=
  match doc.find (get_attrs entry.2) with
  | none => []
  | some tag =>
      if entry.1 ∈ compositeKeys then
        (tag.getAttr "name").toList ++ sibNames tag
      else if entry.1 = "upTextareaControl" then
        (doc.findAll (get_attrs entry.2)).flatMap
          (fun ta => (ta.getAttr "name").toList)
      else if entry.1 = "Header_Container_AppMain" then headerNames
      else if entry.1 ∈ snapshotExcludedKeys then []
      else (tag.getAttr "name").toList

/-- The wire names assigned by the snapshot-excluded entries. -/
def exclEntryNames (doc : Doc) (dps : List (String × FieldParam)) : List String :=
  (dps.filter (fun e => e.1 ∈ snapshotExcludedKeys)).flatMap (wireNames doc)

/-- Did some `Header_Container_AppMain` entry match an element? -/
def headerMatched (doc : Doc) (dps : List (String × FieldParam)) : Prop :=
  ∃ e ∈ dps, e.1 = "Header_Container_AppMain" ∧ (doc.find (get_attrs e.2)).isSome

/-! ## Result projections (for stating concrete scrape facts) -/

/-- Snapshot lookup through a scrape result. -/
def scrapeSnapshotLookup (r : Except ScrapeStructuralError FHState)
    (k : String) : Option (Option Json) :=
  match r with
  | .ok st => some (lookupA st.frData k)
  | .error _ => none

/-- Wire-payload lookup through a scrape result. -/
def scrapeDataLookup (r : Except ScrapeStructuralError FHState)
    (k : String) : Option (Option Json) :=
  match r with
  | .ok st => some (lookupA st.data k)
  | .error _ => none

/-- Snapshot key sequence through a scrape result. -/
def scrapeSnapshotKeys (r : Except ScrapeStructuralError FHState) :
    Option (List String) :=
  match r with
  | .ok st => some (keysOf st.frData)
  | .error _ => none

/-- Wire-payload key sequence through a scrape result. -/
def scrapeDataKeys (r : Except ScrapeStructuralError FHState) :
    Option (List String) :=
  match r with
  | .ok st => some (keysOf st.data)
  | .error _ => none

/-! ## Concrete demonstration documents -/

/-- A document with one plain field and one matched header container
(class `form-abc123`, name `F1`, id `u1`, action `/next?x=1`). -/
def headerDemoDoc : Doc :=
  ⟨fun q =>
      if q = [("id", "bfield")] then
        some (.mk [("name", "b"), ("value", "v")] none [] none none)
      else if q = [("id", "hdr")] then
        some (.mk [("name", "F1"), ("id", "u1"), ("action", "/next?x=1")]
          (some ["form-abc123"]) [] none none)
      else none,
    fun _ => [], []⟩

/-- Field Specification: one default key, then the header key. -/
def headerDemoParams : List (String × FieldParam) :=
  [("other", ⟨["id"], ["bfield"]⟩),
   ("Header_Container_AppMain", ⟨["id"], ["hdr"]⟩)]

/-- `headerDemoDoc` extended with a `CSRFToken` field (wire name `csrf`). -/
def snapDemoDoc : Doc :=
  ⟨fun q =>
      if q = [("id", "cfield")] then
        some (.mk [("name", "csrf"), ("value", "t")] none [] none none)
      else if q = [("id", "bfield")] then
        some (.mk [("name", "b"), ("value", "v")] none [] none none)
      else if q = [("id", "hdr")] then
        some (.mk [("name", "F1"), ("id", "u1"), ("action", "/next?x=1")]
          (some ["form-abc123"]) [] none none)
      else none,
    fun _ => [], []⟩

/-- Field Specification with an excluded key, a default key, and the
header key. -/
def snapDemoParams : List (String × FieldParam) :=
  [("CSRFToken", ⟨["id"], ["cfield"]⟩),
   ("other", ⟨["id"], ["bfield"]⟩),
   ("Header_Container_AppMain", ⟨["id"], ["hdr"]⟩)]

/-- The scrape state `snapDemoDoc`/`snapDemoParams` produces. -/
def snapDemoState : FHState :=
  ⟨"/next", [("x", ["1"])],
   [("csrf", Json.arr [Json.str "t"]), ("b", Json.arr [Json.str "v"]),
    ("fr_formData", Json.arr [Json.str
      (jsonDumpsCompact (.arr [.obj
        [("b", Json.str "v"), ("fr_formGuid", Json.str "abc123"),
         ("fr_formName", Json.str "F1"),
         ("fr_uniqueId", Json.str "u1")]]))])],
   [("b", Json.str "v"), ("fr_formGuid", Json.str "abc123"),
    ("fr_formName", Json.str "F1"), ("fr_uniqueId", Json.str "u1")], []⟩

/-! ## Dictionary lemmas -/

theorem lookupA_upsert_self {α : Type} (l : List (String × α)) (k : String) (v : α) :
    lookupA (upsert l k v) k = some v := by
  induction l with
  | nil => simp [upsert, lookupA]
  | cons h t ih =>
      obtain ⟨k', v'⟩ := h
      by_cases hk : k' = k
      · subst hk; simp [upsert, lookupA]
      · simp [upsert, hk, lookupA, List.find?]
        simpa [lookupA] using ih

theorem lookupA_upsert_ne {α : Type} (l : List (String × α)) (k k2 : String) (v : α)
    (h : k2 ≠ k) : lookupA (upsert l k v) k2 = lookupA l k2 := by
  induction l with
  | nil => simp [upsert, lookupA, List.find?, Ne.symm h]
  | cons hd t ih =>
      obtain ⟨k', v'⟩ := hd
      by_cases hk : k' = k
      · subst hk
        simp [upsert, lookupA, List.find?, Ne.symm h]
      · simp only [upsert, if_neg hk]
        by_cases hk2 : k' = k2
        · subst hk2; simp [lookupA, List.find?]
        · simp [lookupA, List.find?, hk2] at ih ⊢
          exact ih

theorem mem_keysOf_upsert {α : Type} (l : List (String × α)) (k n : String) (v : α) :
    n ∈ keysOf (upsert l k v) ↔ n = k ∨ n ∈ keysOf l := by
  induction l with
  | nil => simp [upsert, keysOf]
  | cons hd t ih =>
      obtain ⟨k', v'⟩ := hd
      by_cases hk : k' = k
      · subst hk; simp [upsert, keysOf]
        try tauto
      · simp [upsert, hk, keysOf] at ih ⊢
        try tauto

theorem nodup_keysOf_upsert {α : Type} (l : List (String × α)) (k : String) (v : α)
    (h : (keysOf l).Nodup) : (keysOf (upsert l k v)).Nodup := by
  induction l with
  | nil => simp [upsert, keysOf]
  | cons hd t ih =>
      obtain ⟨k', v'⟩ := hd
      simp only [keysOf, List.map_cons, List.nodup_cons] at h
      by_cases hk : k' = k
      · subst hk
        simpa [upsert, keysOf, List.nodup_cons] using h
      · simp only [upsert, if_neg hk, keysOf, List.map_cons, List.nodup_cons]
        refine ⟨fun hmem => ?_, ih h.2⟩
        rcases (mem_keysOf_upsert t k k' v).1 hmem with h1 | h1
        · exact hk h1
        · exact h.1 h1

/-! ## Header rotation: claim C3 -/

/-- C3: for a pool of more than 3 header sets, the set returned by
`get_random_headers` never equals any entry of the persisted recency list
(the immediately preceding up-to-3 selections), and the recency list is
updated by pushing the choice and truncating to 3. -/
theorem get_random_headers_avoids_recent
    (pool draws recent : List Headers) (c : Headers) (r : List Headers)
    (hpool : 3 < pool.length) (hdraws : ∀ d ∈ draws, d ∈ pool)
    (h : get_random_headers recent draws = some (c, r)) :
    c ∉ recent ∧ r = save_recent_headers recent c := by
  induction draws with
  | nil => simp [get_random_headers] at h
  | cons d ds ih =>
      rw [get_random_headers] at h
      split at h
      · rename_i hcond
        obtain ⟨rfl, rfl⟩ : d = c ∧ save_recent_headers recent d = r := by
          constructor <;> injection h with h1 <;> cases h1 <;> rfl
        exact ⟨hcond.2, rfl⟩
      · exact ih (fun x hx => hdraws x (List.mem_cons_of_mem _ hx)) h

/-- Witness for C3 at a 4-element pool with one recent entry: the second
draw is accepted after the first is rejected for recency. -/
theorem get_random_headers_avoids_recent_witness :
    ([("b", "2")] : Headers) ∉ [[("a", "1")]] ∧
    ([[("b", "2")], [("a", "1")]] : List Headers) =
      save_recent_headers [[("a", "1")]] [("b", "2")] :=
  get_random_headers_avoids_recent
    [[("a", "1")], [("b", "2")], [("c", "3")], [("d", "4")]]
    [[("a", "1")], [("b", "2")]] [[("a", "1")]] [("b", "2")]
    [[("b", "2")], [("a", "1")]] (by decide) (by decide) (by decide)

/-! ## Lookup miss: claim C7 -/

/-- C7: a Field Specification entry whose attribute query matches no
element contributes nothing to the payload state: the step returns the
state unchanged except for one appended warning, and the key loop
continues with the remaining entries. -/
theorem processKey_miss_skips (doc : Doc) (br : List (String × Json))
    (st : FHState) (key : String) (p : FieldParam)
    (rest : List (String × FieldParam))
    (h : doc.find (get_attrs p) = none) :
    processKey doc br st (key, p) = .ok { st with log := st.log ++ [.warn key] } ∧
    List.foldlM (processKey doc br) st ((key, p) :: rest) =
      List.foldlM (processKey doc br) { st with log := st.log ++ [.warn key] } rest := by
  have hstep : processKey doc br st (key, p) =
      .ok { st with log := st.log ++ [.warn key] } := by
    simp [processKey, h]
  refine ⟨hstep, ?_⟩
  rw [List.foldlM_cons, hstep]
  rfl

/-- Witness for C7: a document with no matches skips the entry with a
warning and the loop proceeds to the next entry. -/
theorem processKey_miss_skips_witness :
    processKey ⟨fun _ => none, fun _ => [], []⟩ [] ⟨"/p", [], [], [], []⟩
        ("Project", ⟨["id"], ["x"]⟩) =
      .ok ⟨"/p", [], [], [], [.warn "Project"]⟩ ∧
    List.foldlM (processKey ⟨fun _ => none, fun _ => [], []⟩ [])
        ⟨"/p", [], [], [], []⟩
        [("Project", ⟨["id"], ["x"]⟩), ("CSRFToken", ⟨["id"], ["y"]⟩)] =
      List.foldlM (processKey ⟨fun _ => none, fun _ => [], []⟩ [])
        ⟨"/p", [], [], [], [.warn "Project"]⟩ [("CSRFToken", ⟨["id"], ["y"]⟩)] :=
  processKey_miss_skips ⟨fun _ => none, fun _ => [], []⟩ [] ⟨"/p", [], [], [], []⟩
    "Project" ⟨["id"], ["x"]⟩ [("CSRFToken", ⟨["id"], ["y"]⟩)] rfl

/-! ## Constructor test-mode independence: claim C10 -/

/-- C10: `submit_form` is independent of the `test_mode` argument stored by
the `FormHandler` constructor: two handler states differing only in that
field produce identical traces and outcomes, because the POST decision
reads only the module-level `TEST_MODE` constant. -/
theorem submit_form_ignores_ctor_test_mode (tm : Bool)
    (br : List (String × Json)) (dps : List (String × FieldParam))
    (env : RunEnv) (p : String) (q : List (String × List String)) (a b : Bool) :
    submit_form tm br dps env ⟨p, q, a⟩ = submit_form tm br dps env ⟨p, q, b⟩ :=
  rfl

/-! ## Action-identifier augmentation: claim C6 -/

/-- C6: when the `fr_ActionId` key matches an element whose `value` is
`"42"`, the state after processing that key carries the three staging
query parameters `qs_actionMode=["42"]`, `qs_template=["stage"]`,
`rq_xhr=["31"]`, and records the field's own value in the wire payload and
the snapshot. -/
theorem fr_ActionId_augments_query
    (doc : Doc) (br : List (String × Json)) (st : FHState) (p : FieldParam)
    (tag : Elem) (n : String)
    (hfind : doc.find (get_attrs p) = some tag)
    (hval : tag.getAttr "value" = some "42")
    (hname : tag.getAttr "name" = some n) :
    ∃ st2, processKey doc br st ("fr_ActionId", p) = .ok st2 ∧
      lookupA st2.query "qs_actionMode" = some ["42"] ∧
      lookupA st2.query "qs_template" = some ["stage"] ∧
      lookupA st2.query "rq_xhr" = some ["31"] ∧
      lookupA st2.data n = some (.arr [.str "42"]) ∧
      lookupA st2.frData n = some (.str "42") := by
  have hpk : processKey doc br st ("fr_ActionId", p) = .ok
      { st with query := append_url_query tag st.query,
                data := upsert st.data n (.arr [.str "42"]),
                frData := upsert st.frData n (.str "42") } := by
    simp only [processKey, hfind, compositeKeys, processActionId, Elem.reqAttr, hname,
          Elem.getD, hval]
    simp
    rfl
  refine ⟨_, hpk, ?_, ?_, ?_, ?_, ?_⟩
  · rw [append_url_query, lookupA_upsert_ne _ _ _ _ (by decide),
        lookupA_upsert_ne _ _ _ _ (by decide), lookupA_upsert_self]
    simp [Elem.getD, hval]
  · rw [append_url_query, lookupA_upsert_ne _ _ _ _ (by decide), lookupA_upsert_self]
  · rw [append_url_query, lookupA_upsert_self]
  · exact lookupA_upsert_self _ _ _
  · exact lookupA_upsert_self _ _ _

/-- Witness for C6 at a one-element document whose `fr_ActionId` element
has value `"42"` and name `"actid"`. -/
theorem fr_ActionId_augments_query_witness :
    ∃ st2,
      processKey
        ⟨fun _ => some (.mk [("name", "actid"), ("value", "42")] none [] none none),
         fun _ => [], []⟩ [] ⟨"/p", [], [], [], []⟩ ("fr_ActionId", ⟨["id"], ["a"]⟩) =
        .ok st2 ∧
      lookupA st2.query "qs_actionMode" = some ["42"] ∧
      lookupA st2.query "qs_template" = some ["stage"] ∧
      lookupA st2.query "rq_xhr" = some ["31"] ∧
      lookupA st2.data "actid" = some (.arr [.str "42"]) ∧
      lookupA st2.frData "actid" = some (.str "42") :=
  fr_ActionId_augments_query
    ⟨fun _ => some (.mk [("name", "actid"), ("value", "42")] none [] none none),
     fun _ => [], []⟩ [] ⟨"/p", [], [], [], []⟩ ⟨["id"], ["a"]⟩
    (.mk [("name", "actid"), ("value", "42")] none [] none none) "actid"
    rfl rfl rfl

/-! ## Test-mode POST skip: claim C5 -/

/-- C5: with the configured `TEST_MODE` flag true and the GET and scrape
both succeeding, `submit_form` performs the GET, the cookie extraction and
the scrape, issues no POST, and the run completes successfully with the
skipped-POST branch returning `None`. -/
theorem test_mode_skips_post
    (br : List (String × Json)) (dps : List (String × FieldParam))
    (env : RunEnv) (st : FormHandlerState) (doc : Doc) (fst : FHState)
    (hget : env.getResult = .ok doc)
    (hfetch : fetch_dynamic_values br dps doc st.path st.query = .ok fst) :
    (submit_form true br dps env st).2 = .ok none ∧
    (submit_form true br dps env st).1 =
      RunAction.getReq st.path st.query :: RunAction.cookieScan ::
        ((match (parse_and_set_cookies doc.texts).1 with
          | some (n, v) => [RunAction.setCookie n v]
          | none => []) ++ [RunAction.scrapeStep]) ∧
    (∀ a ∈ (submit_form true br dps env st).1, a.isPost = false) := by
  have hsf : submit_form true br dps env st =
      (RunAction.getReq st.path st.query :: RunAction.cookieScan ::
        ((match (parse_and_set_cookies doc.texts).1 with
          | some (n, v) => [RunAction.setCookie n v]
          | none => []) ++ [RunAction.scrapeStep]), .ok none) := by
    simp [submit_form, hget, hfetch]
  refine ⟨by rw [hsf], by rw [hsf], ?_⟩
  rw [hsf]
  intro a ha
  cases hck : (parse_and_set_cookies doc.texts).1 with
  | none =>
      rw [hck] at ha
      simp at ha
      rcases ha with rfl | rfl | rfl <;> rfl
  | some nv =>
      obtain ⟨n, v⟩ := nv
      rw [hck] at ha
      simp at ha
      rcases ha with rfl | rfl | rfl | rfl <;> rfl

/-- Witness for C5: empty field specification against an empty document;
the trace is GET, cookie scan, scrape, with no POST and a successful
outcome. -/
theorem test_mode_skips_post_witness :
    (submit_form true [] [] ⟨.ok ⟨fun _ => none, fun _ => [], []⟩, .ok ()⟩
        ⟨"/p", [], true⟩).2 = .ok none ∧
    (∀ a ∈ (submit_form true [] [] ⟨.ok ⟨fun _ => none, fun _ => [], []⟩, .ok ()⟩
        ⟨"/p", [], true⟩).1, a.isPost = false) := by
  have h := test_mode_skips_post [] [] ⟨.ok ⟨fun _ => none, fun _ => [], []⟩, .ok ()⟩
    ⟨"/p", [], true⟩ ⟨fun _ => none, fun _ => [], []⟩ _ rfl rfl
  exact ⟨h.1, h.2.2⟩

/-! ## Cookie extraction is non-fatal: claim C8 -/

/-- The first satisfying element of a split list. -/
theorem find?_first_of_split {α : Type} (p : α → Bool) (pre : List α) (node : α)
    (post : List α) (hpre : ∀ t ∈ pre, p t = false) (hn : p node = true) :
    List.find? p (pre ++ node :: post) = some node := by
  induction pre with
  | nil => simp [List.find?, hn]
  | cons h t ih =>
      have hh := hpre h (by simp)
      simp only [List.cons_append, List.find?, hh]
      exact ih (fun x hx => hpre x (List.mem_cons_of_mem _ hx))

/-- C8: the cookie extraction never fails the run: with no marker match it
logs and returns without a cookie; with a marker match whose pattern fails
it also logs and returns; and only the first marker-matching text node is
ever consulted (trailing nodes are irrelevant). -/
theorem parse_and_set_cookies_nonfatal :
    (∀ texts : List String, (∀ t ∈ texts, markerMatches t = false) →
        parse_and_set_cookies texts = (none, [.warn "no-setCookie-script"])) ∧
    (∀ (pre : List String) (node : String) (post : List String),
        (∀ t ∈ pre, markerMatches t = false) → markerMatches node = true →
        parse_and_set_cookies (pre ++ node :: post) =
          parse_and_set_cookies (pre ++ [node]) ∧
        (searchPattern node.data = none →
          parse_and_set_cookies (pre ++ node :: post) =
            (none, [.info "js-cookie-found", .warn "no-cookie-pattern"]))) := by
  constructor
  · intro texts h
    have hf : texts.find? markerMatches = none :=
      List.find?_eq_none.mpr (fun x hx => by simp [h x hx])
    simp [parse_and_set_cookies, hf]
  · intro pre node post hpre hn
    have h1 : (pre ++ node :: post).find? markerMatches = some node :=
      find?_first_of_split _ pre node post hpre hn
    have h2 : (pre ++ [node]).find? markerMatches = some node :=
      find?_first_of_split _ pre node [] hpre hn
    refine ⟨by rw [parse_and_set_cookies, parse_and_set_cookies, h1, h2], ?_⟩
    intro hs
    simp [parse_and_set_cookies, h1, hs]

/-- Witness for C8: a marker-free document logs the script miss; a
document whose marker node fails the pattern logs the pattern miss and
ignores the trailing node. -/
theorem parse_and_set_cookies_nonfatal_witness :
    parse_and_set_cookies ["abc"] = (none, [.warn "no-setCookie-script"]) ∧
    parse_and_set_cookies ["x", "Helper.setCookie(broken", "y"] =
      parse_and_set_cookies ["x", "Helper.setCookie(broken"] ∧
    parse_and_set_cookies ["x", "Helper.setCookie(broken", "y"] =
      (none, [.info "js-cookie-found", .warn "no-cookie-pattern"]) := by
  refine ⟨parse_and_set_cookies_nonfatal.1 ["abc"] (by decide), ?_, ?_⟩
  · exact (parse_and_set_cookies_nonfatal.2 ["x"] "Helper.setCookie(broken" ["y"]
      (by decide) (by decide)).1
  · exact (parse_and_set_cookies_nonfatal.2 ["x"] "Helper.setCookie(broken" ["y"]
      (by decide) (by decide)).2 (by decide)

/-! ## Repeated-control zipping: claim C4 -/

/-- Reduction of an `Except` bind on a success. -/
theorem except_bind_ok {e a b : Type} (x : a) (f : a → Except e b) :
    (Except.ok x >>= f) = f x :=
  rfl

/-- Reduction of an `Except` bind on a failure. -/
theorem except_bind_error {e a b : Type} (err : e) (f : a → Except e b) :
    ((Except.error err : Except e a) >>= f) = Except.error err :=
  rfl

/-- Keys not named by any processed textarea are untouched by the
positional loop. -/
theorem processTextareasGo_preserve (vals : List Json) (n : String) :
    ∀ (tas : List Elem) (i : Nat) (st st2 : FHState),
    processTextareasGo (.arr vals) tas i st = .ok st2 →
    (∀ ta ∈ tas, ta.getAttr "name" ≠ some n) →
    lookupA st2.data n = lookupA st.data n ∧
    lookupA st2.frData n = lookupA st.frData n := by
  intro tas
  induction tas with
  | nil =>
      intro i st st2 h _
      simp only [processTextareasGo] at h
      injection h with h
      subst h
      exact ⟨rfl, rfl⟩
  | cons ta rest ih =>
      intro i st st2 h hn
      simp only [processTextareasGo] at h
      cases hv : jsonIndex (.arr vals) i with
      | error e => rw [hv, except_bind_error] at h; exact absurd h (by simp)
      | ok v0 =>
          rw [hv, except_bind_ok] at h
          cases hname : ta.reqAttr "name" with
          | error e =>
              rw [hname, except_bind_error] at h
              exact absurd h (by simp)
          | ok n0 =>
              rw [hname, except_bind_ok] at h
              have hget : ta.getAttr "name" = some n0 := by
                rw [Elem.reqAttr] at hname
                cases hg : ta.getAttr "name" with
                | none => rw [hg] at hname; exact absurd hname (by simp)
                | some x => rw [hg] at hname; injection hname with hx; rw [hx]
              have hrec := ih (i + 1) _ st2 h
                (fun x hx => hn x (List.mem_cons_of_mem _ hx))
              have hne : n ≠ n0 := by
                intro hcontra
                exact hn ta (by simp) (by rw [hget, hcontra])
              refine ⟨?_, ?_⟩
              · rw [hrec.1]
                exact lookupA_upsert_ne _ _ _ _ hne
              · rw [hrec.2]
                exact lookupA_upsert_ne _ _ _ _ hne

/-- Positional success of the textarea loop: with enough Base Response
values, distinct names and a `name` attribute on every element, the loop
succeeds and maps element `j` to value `i + j` as a singleton payload
entry under that element's name. -/
theorem processTextareasGo_positional (vals : List Json) :
    ∀ (tas : List Elem) (i : Nat) (st : FHState),
    (∀ ta ∈ tas, (ta.getAttr "name").isSome = true) →
    i + tas.length ≤ vals.length →
    (tas.map (·.getAttr "name")).Nodup →
    ∃ st2, processTextareasGo (.arr vals) tas i st = .ok st2 ∧
      ∀ (j : Nat) (ta : Elem) (n : String) (v : Json),
        tas.get? j = some ta → ta.getAttr "name" = some n →
        vals.get? (i + j) = some v →
        lookupA st2.data n = some (.arr [v]) ∧ lookupA st2.frData n = some v := by
  intro tas
  induction tas with
  | nil =>
      intro i st _ _ _
      exact ⟨st, rfl, fun j ta n v hta => by simp at hta⟩
  | cons ta rest ih =>
      intro i st hnames hlen hdist
      have hi : i < vals.length := by simp at hlen; omega
      obtain ⟨v0, hv0⟩ : ∃ v0, vals.get? i = some v0 := by
        cases hv : vals.get? i with
        | none => exact absurd (List.get?_eq_none.mp hv) (by omega)
        | some v0 => exact ⟨v0, rfl⟩
      obtain ⟨n0, hn0⟩ : ∃ n0, ta.getAttr "name" = some n0 :=
        Option.isSome_iff_exists.mp (hnames ta (by simp))
      have hstep : processTextareasGo (.arr vals) (ta :: rest) i st =
          processTextareasGo (.arr vals) rest (i + 1)
            { st with data := upsert st.data n0 (.arr [v0]),
                      frData := upsert st.frData n0 v0 } := by
        simp only [processTextareasGo, jsonIndex, hv0, except_bind_ok,
          Elem.reqAttr, hn0]
      obtain ⟨st2, hgo, hlook⟩ := ih (i + 1)
        { st with data := upsert st.data n0 (.arr [v0]),
                  frData := upsert st.frData n0 v0 }
        (fun x hx => hnames x (List.mem_cons_of_mem _ hx))
        (by simp at hlen ⊢; omega)
        (by simp only [List.map_cons, List.nodup_cons] at hdist; exact hdist.2)
      refine ⟨st2, by rw [hstep, hgo], ?_⟩
      intro j ta2 n v hta hn hv
      cases j with
      | zero =>
          simp only [List.get?] at hta
          injection hta with hta
          subst hta
          have hnn : n = n0 := by
            rw [hn0] at hn; injection hn with h; exact h.symm
          subst hnn
          have hvv : v = v0 := by
            rw [Nat.add_zero] at hv; rw [hv0] at hv
            injection hv with h; exact h.symm
          subst hvv
          have hpres := processTextareasGo_preserve vals n rest (i + 1) _ st2 hgo ?_
          · rw [hpres.1, hpres.2, lookupA_upsert_self, lookupA_upsert_self]
            exact ⟨rfl, rfl⟩
          · intro x hx hcontra
            simp only [List.map_cons, List.nodup_cons] at hdist
            exact hdist.1 (by
              rw [hn0, ← hcontra]
              exact List.mem_map_of_mem _ hx)
      | succ j2 =>
          have hidx : i + 1 + j2 = i + (j2 + 1) := by omega
          have := hlook j2 ta2 n v (by simpa using hta) hn (by rw [hidx]; exact hv)
          exact this

/-- Abort of the textarea loop: when the Base Response sequence is shorter
than the element list, indexing the first out-of-range position raises the
fatal `IndexError`. -/
theorem processTextareasGo_aborts (vals : List Json) :
    ∀ (tas : List Elem) (i : Nat) (st : FHState),
    (∀ ta ∈ tas, (ta.getAttr "name").isSome = true) →
    vals.length < i + tas.length → i ≤ vals.length →
    processTextareasGo (.arr vals) tas i st = .error .indexError := by
  intro tas
  induction tas with
  | nil => intro i st _ hover hi; simp at hover; omega
  | cons ta rest ih =>
      intro i st hnames hover hi
      by_cases hlt : i < vals.length
      · obtain ⟨v0, hv0⟩ : ∃ v0, vals.get? i = some v0 := by
          cases hv : vals.get? i with
          | none => exact absurd (List.get?_eq_none.mp hv) (by omega)
          | some v0 => exact ⟨v0, rfl⟩
        obtain ⟨n0, hn0⟩ : ∃ n0, ta.getAttr "name" = some n0 :=
          Option.isSome_iff_exists.mp (hnames ta (by simp))
        have hstep : processTextareasGo (.arr vals) (ta :: rest) i st =
            processTextareasGo (.arr vals) rest (i + 1)
              { st with data := upsert st.data n0 (.arr [v0]),
                        frData := upsert st.frData n0 v0 } := by
          simp only [processTextareasGo, jsonIndex, hv0, except_bind_ok,
            Elem.reqAttr, hn0]
        rw [hstep]
        exact ih (i + 1) _ (fun x hx => hnames x (List.mem_cons_of_mem _ hx))
          (by simp at hover ⊢; omega) (by omega)
      · have hieq : i = vals.length := by omega
        have hv : vals.get? i = none := List.get?_eq_none.mpr (by omega)
        simp only [processTextareasGo, jsonIndex, hv, except_bind_error]

/-- C4: for the repeated-control key `upTextareaControl` with N matched
elements: a Base Response sequence of length at least N maps each element
positionally to its sequence value as a singleton payload entry under the
element's name; a shorter sequence makes the step, and with it the whole
key loop, abort with the fatal structural `IndexError`. -/
theorem upTextareaControl_positional_or_aborts
    (doc : Doc) (br : List (String × Json)) (st : FHState) (p : FieldParam)
    (tag0 : Elem) (tas : List Elem) (vals : List Json)
    (hfind : doc.find (get_attrs p) = some tag0)
    (hall : doc.findAll (get_attrs p) = tas)
    (hbr : lookupA br "upTextareaControl" = some (.arr vals))
    (hnames : ∀ ta ∈ tas, (ta.getAttr "name").isSome = true)
    (hdist : (tas.map (·.getAttr "name")).Nodup) :
    (tas.length ≤ vals.length →
      ∃ st2, processKey doc br st ("upTextareaControl", p) = .ok st2 ∧
        ∀ (j : Nat) (ta : Elem) (n : String) (v : Json),
          tas.get? j = some ta → ta.getAttr "name" = some n → vals.get? j = some v →
          lookupA st2.data n = some (.arr [v]) ∧ lookupA st2.frData n = some v) ∧
    (vals.length < tas.length →
      processKey doc br st ("upTextareaControl", p) = .error .indexError ∧
      ∀ rest, List.foldlM (processKey doc br) st (("upTextareaControl", p) :: rest) =
        .error .indexError) := by
  have hdisp : processKey doc br st ("upTextareaControl", p) =
      processTextareasGo (.arr vals) tas 0 st := by
    simp [processKey, hfind, compositeKeys, processTextareas, hall, hbr]
  constructor
  · intro hlen
    obtain ⟨st2, hgo, hlook⟩ :=
      processTextareasGo_positional vals tas 0 st hnames (by omega) hdist
    refine ⟨st2, by rw [hdisp, hgo], ?_⟩
    intro j ta n v hta hn hv
    exact hlook j ta n v hta hn (by simpa using hv)
  · intro hlt
    have herr := processTextareasGo_aborts vals tas 0 st hnames (by omega) (by omega)
    refine ⟨by rw [hdisp, herr], ?_⟩
    intro rest
    rw [List.foldlM_cons, hdisp, herr, except_bind_error]

/-- Witness for C4: two textareas named `t1`, `t2`; a two-value sequence
maps the second element to `"v2"`; a one-value sequence aborts with the
structural `IndexError`. -/
theorem upTextareaControl_positional_or_aborts_witness :
    (∃ st2,
      processKey
        ⟨fun _ => some (.mk [("name", "t1")] none [] none none),
         fun _ => [.mk [("name", "t1")] none [] none none,
                   .mk [("name", "t2")] none [] none none], []⟩
        [("upTextareaControl", .arr [.str "v1", .str "v2"])]
        ⟨"/p", [], [], [], []⟩ ("upTextareaControl", ⟨["id"], ["u"]⟩) = .ok st2 ∧
      lookupA st2.data "t2" = some (.arr [.str "v2"]) ∧
      lookupA st2.frData "t2" = some (.str "v2")) ∧
    processKey
        ⟨fun _ => some (.mk [("name", "t1")] none [] none none),
         fun _ => [.mk [("name", "t1")] none [] none none,
                   .mk [("name", "t2")] none [] none none], []⟩
        [("upTextareaControl", .arr [.str "v1"])]
        ⟨"/p", [], [], [], []⟩ ("upTextareaControl", ⟨["id"], ["u"]⟩) =
      .error .indexError := by
  constructor
  · obtain ⟨st2, hpk, hlook⟩ :=
      (upTextareaControl_positional_or_aborts
        ⟨fun _ => some (.mk [("name", "t1")] none [] none none),
         fun _ => [.mk [("name", "t1")] none [] none none,
                   .mk [("name", "t2")] none [] none none], []⟩
        [("upTextareaControl", .arr [.str "v1", .str "v2"])]
        ⟨"/p", [], [], [], []⟩ ⟨["id"], ["u"]⟩
        (.mk [("name", "t1")] none [] none none)
        [.mk [("name", "t1")] none [] none none,
         .mk [("name", "t2")] none [] none none]
        [.str "v1", .str "v2"] rfl rfl rfl (by decide) (by decide)).1
        (by decide)
    have h2 := hlook 1 (.mk [("name", "t2")] none [] none none) "t2" (.str "v2")
      rfl rfl rfl
    exact ⟨st2, hpk, h2.1, h2.2⟩
  · exact ((upTextareaControl_positional_or_aborts
        ⟨fun _ => some (.mk [("name", "t1")] none [] none none),
         fun _ => [.mk [("name", "t1")] none [] none none,
                   .mk [("name", "t2")] none [] none none], []⟩
        [("upTextareaControl", .arr [.str "v1"])]
        ⟨"/p", [], [], [], []⟩ ⟨["id"], ["u"]⟩
        (.mk [("name", "t1")] none [] none none)
        [.mk [("name", "t1")] none [] none none,
         .mk [("name", "t2")] none [] none none]
        [.str "v1"] rfl rfl rfl (by decide) (by decide)).2 (by decide)).1

/-! ## Form-state field: claim C2 (corrected)

The code stores the form-state field's literal value verbatim in the wire
payload and parses it as JSON — but the parsed object is stored nested
under the field's own name inside the snapshot (`fr_data[tag["name"]] =
json.loads(value)`).  The snapshot is not seeded with the parsed state's
top-level keys, so later fields are recorded alongside the nested state
rather than overriding it. -/

/-- C2 (amended): when the `fr_formState` key matches an element carrying
`name` and `value` attributes and the value parses as JSON, the step
stores the literal value verbatim as a singleton list in the wire payload
and stores the parsed JSON nested under the field's own name in the
snapshot. -/
theorem fr_formState_verbatim_and_nested
    (doc : Doc) (br : List (String × Json)) (st : FHState) (p : FieldParam)
    (tag : Elem) (n v : String) (jv : Json)
    (hfind : doc.find (get_attrs p) = some tag)
    (hname : tag.getAttr "name" = some n)
    (hval : tag.getAttr "value" = some v)
    (hjson : parseTop v = some jv) :
    processKey doc br st ("fr_formState", p) = .ok
      { st with data := upsert st.data n (.arr [.str v]),
                frData := upsert st.frData n jv } ∧
    lookupA (upsert st.data n (.arr [.str v])) n = some (.arr [.str v]) ∧
    lookupA (upsert st.frData n jv) n = some jv := by
  refine ⟨?_, lookupA_upsert_self _ _ _, lookupA_upsert_self _ _ _⟩
  simp only [processKey, hfind, compositeKeys, processFormState, Elem.reqAttr,
    hname, hval, hjson]
  simp
  rfl

/-- Witness for the amended C2 at a concrete element whose form-state
value is the serialized object with one key `a`. -/
theorem fr_formState_verbatim_and_nested_witness :
    processKey ⟨fun _ => some (.mk [("name", "fs"), ("value", "\x7b\"a\":\"x\"\x7d")]
        none [] none none), fun _ => [], []⟩ [] ⟨"/p", [], [], [], []⟩
      ("fr_formState", ⟨["id"], ["s"]⟩) = .ok
      ⟨"/p", [], [("fs", .arr [.str "\x7b\"a\":\"x\"\x7d"])],
       [("fs", .obj [("a", .str "x")])], []⟩ ∧
    lookupA (upsert ([] : List (String × Json)) "fs"
        (.arr [.str "\x7b\"a\":\"x\"\x7d"])) "fs" = some (.arr [.str "\x7b\"a\":\"x\"\x7d"]) ∧
    lookupA (upsert ([] : List (String × Json)) "fs"
        (.obj [("a", .str "x")])) "fs" = some (.obj [("a", .str "x")]) :=
  fr_formState_verbatim_and_nested
    ⟨fun _ => some (.mk [("name", "fs"), ("value", "\x7b\"a\":\"x\"\x7d")] none [] none none),
     fun _ => [], []⟩ [] ⟨"/p", [], [], [], []⟩ ⟨["id"], ["s"]⟩
    (.mk [("name", "fs"), ("value", "\x7b\"a\":\"x\"\x7d")] none [] none none)
    "fs" "\x7b\"a\":\"x\"\x7d" (.obj [("a", .str "x")]) rfl rfl rfl rfl

/-- Counterexample to C2 as stated: in a scrape whose form-state value is
`{"a":"x"}` followed by a default field named `b`, the snapshot does not
start from the page's serialized state — its top level has no key `a`;
the parsed state sits nested under the field's own name and the later
field is recorded alongside it. -/
theorem fr_formState_seeding_counterexample :
    scrapeSnapshotLookup
      (fetch_dynamic_values []
        [("fr_formState", ⟨["id"], ["state"]⟩), ("other", ⟨["id"], ["bfield"]⟩)]
        ⟨fun q => if q = [("id", "state")] then
            some (.mk [("name", "fr_formState"), ("value", "\x7b\"a\":\"x\"\x7d")]
              none [] none none)
          else if q = [("id", "bfield")] then
            some (.mk [("name", "b"), ("value", "v")] none [] none none)
          else none, fun _ => [], []⟩ "/p" []) "a" = some none ∧
    scrapeSnapshotLookup
      (fetch_dynamic_values []
        [("fr_formState", ⟨["id"], ["state"]⟩), ("other", ⟨["id"], ["bfield"]⟩)]
        ⟨fun q => if q = [("id", "state")] then
            some (.mk [("name", "fr_formState"), ("value", "\x7b\"a\":\"x\"\x7d")]
              none [] none none)
          else if q = [("id", "bfield")] then
            some (.mk [("name", "b"), ("value", "v")] none [] none none)
          else none, fun _ => [], []⟩ "/p" []) "fr_formState" =
      some (some (.obj [("a", .str "x")])) ∧
    scrapeSnapshotLookup
      (fetch_dynamic_values []
        [("fr_formState", ⟨["id"], ["state"]⟩), ("other", ⟨["id"], ["bfield"]⟩)]
        ⟨fun q => if q = [("id", "state")] then
            some (.mk [("name", "fr_formState"), ("value", "\x7b\"a\":\"x\"\x7d")]
              none [] none none)
          else if q = [("id", "bfield")] then
            some (.mk [("name", "b"), ("value", "v")] none [] none none)
          else none, fun _ => [], []⟩ "/p" []) "b" = some (some (.str "v")) :=
  ⟨rfl, rfl, rfl⟩

/-! ## JSON printer/parser round-trip support -/

theorem skipWs_cons_nonws (c : Char) (l : List Char) (h : isJWs c = false) :
    skipWs (c :: l) = c :: l := by
  simp [skipWs, List.dropWhile, h]

theorem skipWs_ws_append (w l : List Char) (h : wsOnly w) :
    skipWs (w ++ l) = skipWs l := by
  induction w with
  | nil => simp
  | cons c t ih =>
      have hc := h c (by simp)
      simp only [List.cons_append, skipWs, List.dropWhile, hc]
      exact ih (fun x hx => h x (List.mem_cons_of_mem _ hx))

theorem expectLit_self_append (lit r : List Char) :
    expectLit lit (lit ++ r) = some r := by
  induction lit with
  | nil => simp [expectLit]
  | cons c t ih => simp [expectLit, ih]

theorem takeWhile_all_append (p : Char → Bool) (l1 l2 : List Char)
    (h : ∀ c ∈ l1, p c = true) :
    (l1 ++ l2).takeWhile p = l1 ++ l2.takeWhile p := by
  induction l1 with
  | nil => simp
  | cons c t ih =>
      have hc := h c (by simp)
      simp only [List.cons_append, List.takeWhile_cons, hc, if_true]
      rw [ih (fun x hx => h x (List.mem_cons_of_mem _ hx))]

theorem dropWhile_all_append (p : Char → Bool) (l1 l2 : List Char)
    (h : ∀ c ∈ l1, p c = true) :
    (l1 ++ l2).dropWhile p = l2.dropWhile p := by
  induction l1 with
  | nil => simp
  | cons c t ih =>
      have hc := h c (by simp)
      simp only [List.cons_append, List.dropWhile_cons, hc, if_true]
      exact ih (fun x hx => h x (List.mem_cons_of_mem _ hx))

theorem JDelim_head_not_digit (rest : List Char) (h : JDelim rest) :
    rest.takeWhile Char.isDigit = [] ∧ rest.dropWhile Char.isDigit = rest := by
  cases rest with
  | nil => simp
  | cons c t =>
      have hc : c.isDigit = false := by
        rcases h with h | h | h | h
        · simp only [isJWs, Bool.or_eq_true, decide_eq_true_eq] at h
          rcases h with ((rfl | rfl) | rfl) | rfl <;> decide
        · subst h; decide
        · subst h; decide
        · subst h; decide
      simp [List.takeWhile_cons, List.dropWhile_cons, hc]

theorem JDelim_ws_append (w l : List Char) (hw : wsOnly w) (hl : JDelim l) :
    JDelim (w ++ l) := by
  cases w with
  | nil => simpa using hl
  | cons c t => exact Or.inl (hw c (by simp))

theorem parseVal_ws_skip (f : Nat) (w X : List Char) (h : wsOnly w) :
    parseVal f (w ++ X) = parseVal f X := by
  cases f with
  | zero => rfl
  | succ f => rw [parseVal, parseVal, skipWs_ws_append _ _ h]

theorem natToCharsAux_eq (n : Nat) (acc : List Char) :
    natToCharsAux n acc = if n < 10 then Nat.digitChar n :: acc
      else natToCharsAux (n / 10) (Nat.digitChar (n % 10) :: acc) := by
  rw [natToCharsAux]
  split <;> rfl

theorem natToCharsAux_acc (n : Nat) : ∀ acc : List Char,
    natToCharsAux n acc = natToCharsAux n [] ++ acc := by
  induction n using Nat.strong_induction_on with
  | _ n ih =>
      intro acc
      by_cases h : n < 10
      · rw [natToCharsAux_eq n acc, natToCharsAux_eq n []]
        simp [h]
      · rw [natToCharsAux_eq n acc, natToCharsAux_eq n []]
        simp only [h, if_false]
        rw [ih (n / 10) (Nat.div_lt_self (by omega) (by omega))
              (Nat.digitChar (n % 10) :: acc),
            ih (n / 10) (Nat.div_lt_self (by omega) (by omega))
              [Nat.digitChar (n % 10)]]
        simp

theorem natToChars_step (n : Nat) (h : ¬ n < 10) :
    natToChars n = natToChars (n / 10) ++ [Nat.digitChar (n % 10)] := by
  rw [natToChars, natToCharsAux_eq]
  simp only [h, if_false]
  rw [natToCharsAux_acc]
  rfl

theorem natToChars_small (n : Nat) (h : n < 10) :
    natToChars n = [Nat.digitChar n] := by
  rw [natToChars, natToCharsAux_eq]
  simp [h]

theorem digitChar_isDigit (n : Nat) (h : n < 10) :
    (Nat.digitChar n).isDigit = true := by
  interval_cases n <;> decide

theorem natToChars_all_digits (n : Nat) :
    ∀ c ∈ natToChars n, c.isDigit = true := by
  induction n using Nat.strong_induction_on with
  | _ n ih =>
      by_cases h : n < 10
      · rw [natToChars_small n h]
        intro c hc
        simp at hc
        subst hc
        exact digitChar_isDigit n h
      · rw [natToChars_step n h]
        intro c hc
        rcases List.mem_append.mp hc with h1 | h1
        · exact ih (n / 10) (Nat.div_lt_self (by omega) (by omega)) c h1
        · simp at h1
          subst h1
          exact digitChar_isDigit (n % 10) (Nat.mod_lt _ (by omega))

theorem natToChars_ne_nil (n : Nat) : natToChars n ≠ [] := by
  by_cases h : n < 10
  · rw [natToChars_small n h]; simp
  · rw [natToChars_step n h]; simp

theorem digitChar_val (n : Nat) (h : n < 10) : (Nat.digitChar n).toNat - 48 = n := by
  interval_cases n <;> decide

theorem digitsVal_append_one (l : List Char) (c : Char) :
    digitsVal (l ++ [c]) = digitsVal l * 10 + (c.toNat - 48) := by
  simp [digitsVal, List.foldl_append]

theorem digitsVal_natToChars (n : Nat) : digitsVal (natToChars n) = n := by
  induction n using Nat.strong_induction_on with
  | _ n ih =>
      by_cases h : n < 10
      · rw [natToChars_small n h]
        simp [digitsVal, digitChar_val n h]
      · rw [natToChars_step n h, digitsVal_append_one,
            ih (n / 10) (Nat.div_lt_self (by omega) (by omega)),
            digitChar_val (n % 10) (Nat.mod_lt _ (by omega))]
        omega

theorem natToChars_head (n : Nat) :
    ∃ (m : Nat) (t : List Char), m < 10 ∧ natToChars n = Nat.digitChar m :: t := by
  induction n using Nat.strong_induction_on with
  | _ n ih =>
      by_cases h : n < 10
      · exact ⟨n, [], h, natToChars_small n h⟩
      · obtain ⟨m, t, hm, ht⟩ := ih (n / 10) (Nat.div_lt_self (by omega) (by omega))
        exact ⟨m, t ++ [Nat.digitChar (n % 10)], hm, by
          rw [natToChars_step n h, ht]; rfl⟩

theorem hexVal_hexDigitChar : ∀ m < 16, hexVal (hexDigitChar m) = some m := by
  decide

theorem parseStrBody_escape : ∀ (s rest : List Char),
    parseStrBody (escapeChars s ++ '"' :: rest) = some (s, rest) := by
  intro s
  induction s with
  | nil =>
      intro rest
      rw [show escapeChars [] = [] from rfl, List.nil_append, parseStrBody.eq_def]
      simp
  | cons c s ih =>
      intro rest
      rw [show escapeChars (c :: s) = escChar c ++ escapeChars s from rfl,
          List.append_assoc]
      by_cases h1 : c = '"'
      · subst h1
        rw [show escChar '"' = ['\\', '"'] from rfl, List.cons_append,
            List.cons_append, List.nil_append, parseStrBody.eq_def]
        simp [unescape1, ih]
      · by_cases h2 : c = '\\'
        · subst h2
          rw [show escChar '\\' = ['\\', '\\'] from rfl, List.cons_append,
              List.cons_append, List.nil_append, parseStrBody.eq_def]
          simp [unescape1, ih]
        · by_cases h3 : c = '\n'
          · subst h3
            rw [show escChar '\n' = ['\\', 'n'] from rfl, List.cons_append,
                List.cons_append, List.nil_append, parseStrBody.eq_def]
            simp [unescape1, ih]
          · by_cases h4 : c = '\t'
            · subst h4
              rw [show escChar '\t' = ['\\', 't'] from rfl, List.cons_append,
                  List.cons_append, List.nil_append, parseStrBody.eq_def]
              simp [unescape1, ih]
            · by_cases h5 : c = '\r'
              · subst h5
                rw [show escChar '\r' = ['\\', 'r'] from rfl, List.cons_append,
                    List.cons_append, List.nil_append, parseStrBody.eq_def]
                simp [unescape1, ih]
              · by_cases h6 : c = Char.ofNat 8
                · subst h6
                  rw [show escChar (Char.ofNat 8) = ['\\', 'b'] from rfl,
                      List.cons_append, List.cons_append, List.nil_append,
                      parseStrBody.eq_def]
                  simp [unescape1, ih]
                · by_cases h7 : c = Char.ofNat 12
                  · subst h7
                    rw [show escChar (Char.ofNat 12) = ['\\', 'f'] from rfl,
                        List.cons_append, List.cons_append, List.nil_append,
                        parseStrBody.eq_def]
                    simp [unescape1, ih]
                  · by_cases h8 : c.toNat < 32
                    · have hesc : escChar c = ['\\', 'u', '0', '0',
                          hexDigitChar (c.toNat / 16), hexDigitChar (c.toNat % 16)] := by
                        simp [escChar, h1, h2, h3, h4, h5, h6, h7, h8]
                      have e1 : hexVal '0' = some 0 := by decide
                      have e2 : hexVal (hexDigitChar (c.toNat / 16)) =
                          some (c.toNat / 16) := hexVal_hexDigitChar _ (by omega)
                      have e3 : hexVal (hexDigitChar (c.toNat % 16)) =
                          some (c.toNat % 16) := hexVal_hexDigitChar _ (by omega)
                      rw [hesc]
                      simp only [List.cons_append, List.nil_append]
                      rw [parseStrBody.eq_def]
                      simp only [e1, e2, e3, ih]
                      have harith : ((0 * 16 + 0) * 16 + c.toNat / 16) * 16 +
                          c.toNat % 16 = c.toNat := by omega
                      simp [harith, Char.ofNat_toNat]
                      rw [show c.toNat / 16 * 16 + c.toNat % 16 = c.toNat from by
                        omega]
                      exact Char.ofNat_toNat c
                    · have hesc : escChar c = [c] := by
                        simp [escChar, h1, h2, h3, h4, h5, h6, h7, h8]
                      rw [hesc, List.cons_append, List.nil_append,
                          parseStrBody.eq_def]
                      simp [h1, h2, ih]

theorem fuelJ_pos (j : Json) : 1 ≤ fuelJ j := by
  cases j with
  | arr es => cases es <;> simp [fuelJ]
  | obj ms => cases ms <;> simp [fuelJ]
  | null => simp [fuelJ]
  | bool b => simp [fuelJ]
  | num n => simp [fuelJ]
  | str s => simp [fuelJ]

theorem fuelEs_pos (e : Json) (es : List Json) : 1 ≤ fuelEs e es := by
  cases es <;> simp [fuelEs] <;> omega

theorem fuelMs_pos (m : String × Json) (ms : List (String × Json)) :
    1 ≤ fuelMs m ms := by
  obtain ⟨k, v⟩ := m
  cases ms <;> simp [fuelMs] <;> omega

theorem digitChar_facts : ∀ m < 10, isJWs (Nat.digitChar m) = false ∧
    Nat.digitChar m ≠ ']' ∧ Nat.digitChar m ≠ '}' ∧ Nat.digitChar m ≠ ',' := by
  decide

theorem printVal_head (cfg : PCfg) (d : Nat) (j : Json) :
    ∃ c t, printVal cfg d j = c :: t ∧ isJWs c = false ∧
      c ≠ ']' ∧ c ≠ '}' ∧ c ≠ ',' := by
  cases j with
  | null =>
      exact ⟨'n', ['u', 'l', 'l'], by simp [printVal], by decide, by decide,
        by decide, by decide⟩
  | bool b =>
      cases b
      · exact ⟨'f', ['a', 'l', 's', 'e'], by simp [printVal], by decide,
          by decide, by decide, by decide⟩
      · exact ⟨'t', ['r', 'u', 'e'], by simp [printVal], by decide, by decide,
          by decide, by decide⟩
  | num n =>
      by_cases hn : n < 0
      · exact ⟨'-', natToChars n.natAbs, by simp [printVal, intChars, hn],
          by decide, by decide, by decide, by decide⟩
      · obtain ⟨m, t, hm, ht⟩ := natToChars_head n.toNat
        obtain ⟨f1, f2, f3, f4⟩ := digitChar_facts m hm
        exact ⟨Nat.digitChar m, t, by simp [printVal, intChars, hn, ht], f1, f2,
          f3, f4⟩
  | str s =>
      exact ⟨'"', escapeChars s.data ++ ['"'], by simp [printVal], by decide,
        by decide, by decide, by decide⟩
  | arr es =>
      cases es with
      | nil =>
          exact ⟨'[', [']'], by simp [printVal], by decide, by decide, by decide,
            by decide⟩
      | cons e es2 =>
          exact ⟨'[', cfg.nl (d + 1) ++ printElemsTail cfg (d + 1) e es2,
            by simp [printVal], by decide, by decide, by decide, by decide⟩
  | obj ms =>
      cases ms with
      | nil =>
          exact ⟨'{', ['}'], by simp [printVal], by decide, by decide, by decide,
            by decide⟩
      | cons m ms2 =>
          exact ⟨'{', cfg.nl (d + 1) ++ printMembsTail cfg (d + 1) m ms2,
            by simp [printVal], by decide, by decide, by decide, by decide⟩

theorem digitChar_not_delims : ∀ m < 10, Nat.digitChar m ≠ '"' ∧
    Nat.digitChar m ≠ '[' ∧ Nat.digitChar m ≠ '{' ∧ Nat.digitChar m ≠ 't' ∧
    Nat.digitChar m ≠ 'f' ∧ Nat.digitChar m ≠ 'n' ∧ Nat.digitChar m ≠ '-' ∧
    (Nat.digitChar m).isDigit = true := by
  decide

theorem printElemsTail_shape (cfg : PCfg) (d : Nat) (e : Json) (es : List Json) :
    ∃ X, printElemsTail cfg d e es = printVal cfg d e ++ X := by
  cases es with
  | nil => exact ⟨cfg.nl (d - 1) ++ [']'], by simp [printElemsTail]⟩
  | cons e2 es2 =>
      exact ⟨',' :: (cfg.nl d ++ printElemsTail cfg d e2 es2),
        by simp [printElemsTail]⟩

theorem printMembsTail_shape (cfg : PCfg) (d : Nat) (m : String × Json)
    (ms : List (String × Json)) :
    ∃ X, printMembsTail cfg d m ms =
      ('"' :: (escapeChars m.1.data ++ ('"' :: ':' :: (cfg.kvs ++ printVal cfg d m.2)))) ++ X := by
  obtain ⟨k, v⟩ := m
  cases ms with
  | nil => exact ⟨cfg.nl (d - 1) ++ ['}'], by simp [printMembsTail, printMemb]⟩
  | cons m2 ms2 =>
      exact ⟨',' :: (cfg.nl d ++ printMembsTail cfg d m2 ms2),
        by simp [printMembsTail, printMemb]⟩

theorem parse_print_rt (cfg : PCfg) (hnl : ∀ lvl, wsOnly (cfg.nl lvl))
    (hkvs : wsOnly cfg.kvs) :
    ∀ f : Nat,
      (∀ (j : Json) (d : Nat) (rest : List Char), fuelJ j ≤ f → JDelim rest →
        parseVal f (printVal cfg d j ++ rest) = some (j, rest)) ∧
      (∀ (w : List Char) (e : Json) (es : List Json) (d : Nat) (rest : List Char),
        wsOnly w → fuelEs e es ≤ f → JDelim rest →
        parseElems f (w ++ (printElemsTail cfg d e es ++ rest)) =
          some (e :: es, rest)) ∧
      (∀ (w : List Char) (m : String × Json) (ms : List (String × Json)) (d : Nat)
          (rest : List Char),
        wsOnly w → fuelMs m ms ≤ f → JDelim rest →
        parseMembs f (w ++ (printMembsTail cfg d m ms ++ rest)) =
          some (m :: ms, rest)) := by
  intro f
  induction f with
  | zero =>
      refine ⟨fun j d rest hf _ => absurd hf (by have := fuelJ_pos j; omega),
              fun w e es d rest _ hf _ =>
                absurd hf (by have := fuelEs_pos e es; omega),
              fun w m ms d rest _ hf _ =>
                absurd hf (by have := fuelMs_pos m ms; omega)⟩
  | succ f ih =>
      obtain ⟨ihA, ihB, ihC⟩ := ih
      refine ⟨?_, ?_, ?_⟩
      · intro j d rest hf hrest
        cases j with
        | null =>
            rw [show printVal cfg d .null = ['n', 'u', 'l', 'l'] from by
              simp [printVal]]
            simp only [List.cons_append, List.nil_append]
            rw [parseVal, skipWs_cons_nonws _ _ (by decide)]
            dsimp only
            rw [if_neg (by decide), if_neg (by decide), if_neg (by decide),
                if_neg (by decide), if_neg (by decide), if_pos rfl,
                show ('u' :: 'l' :: 'l' :: rest) = ['u', 'l', 'l'] ++ rest from rfl,
                expectLit_self_append]
        | bool b =>
            cases b
            · rw [show printVal cfg d (.bool false) = ['f', 'a', 'l', 's', 'e'] from
                by simp [printVal]]
              simp only [List.cons_append, List.nil_append]
              rw [parseVal, skipWs_cons_nonws _ _ (by decide)]
              dsimp only
              rw [if_neg (by decide), if_neg (by decide), if_neg (by decide),
                  if_neg (by decide), if_pos rfl,
                  show ('a' :: 'l' :: 's' :: 'e' :: rest) =
                    ['a', 'l', 's', 'e'] ++ rest from rfl,
                  expectLit_self_append]
            · rw [show printVal cfg d (.bool true) = ['t', 'r', 'u', 'e'] from by
                simp [printVal]]
              simp only [List.cons_append, List.nil_append]
              rw [parseVal, skipWs_cons_nonws _ _ (by decide)]
              dsimp only
              rw [if_neg (by decide), if_neg (by decide), if_neg (by decide),
                  if_pos rfl,
                  show ('r' :: 'u' :: 'e' :: rest) = ['r', 'u', 'e'] ++ rest from
                    rfl,
                  expectLit_self_append]
        | num n =>
            by_cases hn : n < 0
            · rw [show printVal cfg d (.num n) = '-' :: natToChars n.natAbs from
                by simp [printVal, intChars, hn]]
              obtain ⟨m, t, hm, ht⟩ := natToChars_head n.natAbs
              obtain ⟨hd1, hd2, hd3, hd4, hd5, hd6, hd7, hd8⟩ :=
                digitChar_not_delims m hm
              simp only [List.cons_append]
              rw [parseVal, skipWs_cons_nonws _ _ (by decide)]
              dsimp only
              rw [if_neg (by decide), if_neg (by decide), if_neg (by decide),
                  if_neg (by decide), if_neg (by decide), if_neg (by decide),
                  if_pos rfl]
              rw [ht, List.cons_append]
              dsimp only
              rw [if_pos hd8]
              rw [← List.cons_append, ← ht,
                  takeWhile_all_append _ _ _ (natToChars_all_digits n.natAbs),
                  dropWhile_all_append _ _ _ (natToChars_all_digits n.natAbs),
                  (JDelim_head_not_digit rest hrest).1,
                  (JDelim_head_not_digit rest hrest).2,
                  List.append_nil, digitsVal_natToChars]
              have hiv : -((n.natAbs : Nat) : Int) = n := by omega
              rw [hiv]
            · rw [show printVal cfg d (.num n) = natToChars n.toNat from by
                simp [printVal, intChars, hn]]
              obtain ⟨m, t, hm, ht⟩ := natToChars_head n.toNat
              obtain ⟨hd1, hd2, hd3, hd4, hd5, hd6, hd7, hd8⟩ :=
                digitChar_not_delims m hm
              rw [ht, List.cons_append, parseVal,
                  skipWs_cons_nonws _ _ (digitChar_facts m hm).1]
              dsimp only
              rw [if_neg hd1, if_neg hd2, if_neg hd3, if_neg hd4, if_neg hd5,
                  if_neg hd6, if_neg hd7, if_pos hd8]
              rw [← List.cons_append, ← ht,
                  takeWhile_all_append _ _ _ (natToChars_all_digits n.toNat),
                  dropWhile_all_append _ _ _ (natToChars_all_digits n.toNat),
                  (JDelim_head_not_digit rest hrest).1,
                  (JDelim_head_not_digit rest hrest).2,
                  List.append_nil, digitsVal_natToChars]
              have hiv : ((n.toNat : Nat) : Int) = n := by omega
              rw [hiv]
        | str s =>
            rw [show printVal cfg d (.str s) =
              '"' :: (escapeChars s.data ++ ['"']) from by simp [printVal]]
            simp only [List.cons_append, List.append_assoc, List.nil_append]
            rw [parseVal, skipWs_cons_nonws _ _ (by decide)]
            dsimp only
            rw [if_pos rfl, parseStrBody_escape]
        | arr es =>
            cases es with
            | nil =>
                rw [show printVal cfg d (.arr []) = ['[', ']'] from by
                  simp [printVal]]
                simp only [List.cons_append, List.nil_append]
                rw [parseVal, skipWs_cons_nonws _ _ (by decide)]
                dsimp only
                rw [if_neg (by decide), if_pos rfl,
                    skipWs_cons_nonws _ _ (by decide)]
                simp [List.head?]
            | cons e es2 =>
                rw [show printVal cfg d (.arr (e :: es2)) =
                  '[' :: (cfg.nl (d + 1) ++ printElemsTail cfg (d + 1) e es2) from
                  by simp [printVal]]
                obtain ⟨X, hX⟩ := printElemsTail_shape cfg (d + 1) e es2
                obtain ⟨c0, t0, hpe, hc0ws, hc0r, hc0b, hc0c⟩ :=
                  printVal_head cfg (d + 1) e
                simp only [List.cons_append, List.append_assoc]
                rw [parseVal, skipWs_cons_nonws _ _ (by decide)]
                dsimp only
                rw [if_neg (by decide), if_pos rfl]
                rw [skipWs_ws_append _ _ (hnl (d + 1)), hX, hpe]
                simp only [List.cons_append, List.append_assoc]
                rw [skipWs_cons_nonws _ _ hc0ws]
                have hms := ihB [] e es2 (d + 1) rest (by intro c hc; simp at hc)
                  (by simp [fuelJ] at hf; omega) hrest
                simp only [List.nil_append] at hms
                rw [hX, hpe] at hms
                simp only [List.cons_append, List.append_assoc] at hms
                simp [hms, hc0r]
        | obj ms =>
            cases ms with
            | nil =>
                rw [show printVal cfg d (.obj []) = ['{', '}'] from by
                  simp [printVal]]
                simp only [List.cons_append, List.nil_append]
                rw [parseVal, skipWs_cons_nonws _ _ (by decide)]
                dsimp only
                rw [if_neg (by decide), if_neg (by decide), if_pos rfl,
                    skipWs_cons_nonws _ _ (by decide)]
                simp [List.head?]
            | cons m ms2 =>
                rw [show printVal cfg d (.obj (m :: ms2)) =
                  '{' :: (cfg.nl (d + 1) ++ printMembsTail cfg (d + 1) m ms2) from
                  by simp [printVal]]
                obtain ⟨X, hX⟩ := printMembsTail_shape cfg (d + 1) m ms2
                simp only [List.cons_append, List.append_assoc]
                rw [parseVal, skipWs_cons_nonws _ _ (by decide)]
                dsimp only
                rw [if_neg (by decide), if_neg (by decide), if_pos rfl]
                rw [skipWs_ws_append _ _ (hnl (d + 1)), hX]
                simp only [List.cons_append, List.append_assoc]
                rw [skipWs_cons_nonws _ _ (by decide)]
                have hms := ihC [] m ms2 (d + 1) rest (by intro c hc; simp at hc)
                  (by simp [fuelJ] at hf; omega) hrest
                simp only [List.nil_append] at hms
                rw [hX] at hms
                simp only [List.cons_append, List.append_assoc] at hms
                simp [hms]
      · intro w e es d rest hw hf hrest
        cases es with
        | nil =>
            rw [show printElemsTail cfg d e [] =
              printVal cfg d e ++ (cfg.nl (d - 1) ++ [']']) from by
              simp [printElemsTail]]
            simp only [List.append_assoc, List.cons_append, List.nil_append]
            rw [parseElems]
            rw [parseVal_ws_skip _ _ _ hw]
            have hz : JDelim (cfg.nl (d - 1) ++ ']' :: rest) :=
              JDelim_ws_append _ _ (hnl (d - 1)) (by right; right; left; rfl)
            rw [ihA e d _ (by simp [fuelEs] at hf; omega) hz]
            dsimp only
            rw [skipWs_ws_append _ _ (hnl (d - 1)),
                skipWs_cons_nonws _ _ (by decide)]
            simp
        | cons e2 es2 =>
            rw [show printElemsTail cfg d e (e2 :: es2) =
              printVal cfg d e ++ (',' :: (cfg.nl d ++ printElemsTail cfg d e2 es2))
              from by simp [printElemsTail]]
            simp only [List.append_assoc, List.cons_append, List.nil_append]
            rw [parseElems]
            rw [parseVal_ws_skip _ _ _ hw]
            have hz : JDelim (',' :: (cfg.nl d ++ (printElemsTail cfg d e2 es2 ++
                rest))) := by right; left; rfl
            rw [ihA e d _ (by simp [fuelEs] at hf; omega) hz]
            dsimp only
            rw [skipWs_cons_nonws _ _ (by decide)]
            have hms := ihB (cfg.nl d) e2 es2 d rest (hnl d)
              (by simp [fuelEs] at hf; omega) hrest
            simp [hms]
      · intro w m ms d rest hw hf hrest
        obtain ⟨k, v⟩ := m
        cases ms with
        | nil =>
            rw [show printMembsTail cfg d (k, v) [] =
              ('"' :: (escapeChars k.data ++
                ('"' :: ':' :: (cfg.kvs ++ printVal cfg d v)))) ++
              (cfg.nl (d - 1) ++ ['}']) from by simp [printMembsTail, printMemb]]
            simp only [List.append_assoc, List.cons_append, List.nil_append]
            rw [parseMembs]
            rw [skipWs_ws_append _ _ hw, skipWs_cons_nonws _ _ (by decide)]
            dsimp only
            rw [if_pos rfl, parseStrBody_escape]
            dsimp only
            rw [skipWs_cons_nonws _ _ (by decide)]
            dsimp only
            rw [if_pos rfl, parseVal_ws_skip _ _ _ hkvs]
            have hz : JDelim (cfg.nl (d - 1) ++ '}' :: rest) :=
              JDelim_ws_append _ _ (hnl (d - 1)) (by right; right; right; rfl)
            rw [ihA v d _ (by simp [fuelMs] at hf; omega) hz]
            dsimp only
            rw [skipWs_ws_append _ _ (hnl (d - 1)),
                skipWs_cons_nonws _ _ (by decide)]
            simp
        | cons m2 ms2 =>
            rw [show printMembsTail cfg d (k, v) (m2 :: ms2) =
              ('"' :: (escapeChars k.data ++
                ('"' :: ':' :: (cfg.kvs ++ printVal cfg d v)))) ++
              (',' :: (cfg.nl d ++ printMembsTail cfg d m2 ms2)) from by
              simp [printMembsTail, printMemb]]
            simp only [List.append_assoc, List.cons_append, List.nil_append]
            rw [parseMembs]
            rw [skipWs_ws_append _ _ hw, skipWs_cons_nonws _ _ (by decide)]
            dsimp only
            rw [if_pos rfl, parseStrBody_escape]
            dsimp only
            rw [skipWs_cons_nonws _ _ (by decide)]
            dsimp only
            rw [if_pos rfl, parseVal_ws_skip _ _ _ hkvs]
            have hz : JDelim (',' :: (cfg.nl d ++ (printMembsTail cfg d m2 ms2 ++
                rest))) := by right; left; rfl
            rw [ihA v d _ (by simp [fuelMs] at hf; omega) hz]
            dsimp only
            rw [skipWs_cons_nonws _ _ (by decide)]
            have hms := ihC (cfg.nl d) m2 ms2 d rest (hnl d)
              (by simp [fuelMs] at hf; omega) hrest
            simp [hms]

theorem fuel_le_len : ∀ n : Nat,
    (∀ j : Json, sizeOf j ≤ n → ∀ (cfg : PCfg) (d : Nat),
      fuelJ j ≤ 2 * (printVal cfg d j).length) ∧
    (∀ (e : Json) (es : List Json), sizeOf e + sizeOf es ≤ n →
      ∀ (cfg : PCfg) (d : Nat),
      fuelEs e es ≤ 2 * (printElemsTail cfg d e es).length) ∧
    (∀ (m : String × Json) (ms : List (String × Json)), sizeOf m + sizeOf ms ≤ n →
      ∀ (cfg : PCfg) (d : Nat),
      fuelMs m ms ≤ 2 * (printMembsTail cfg d m ms).length) := by
  intro n
  induction n using Nat.strong_induction_on with
  | _ n ih =>
      refine ⟨?_, ?_, ?_⟩
      · intro j hsz cfg d
        cases j with
        | arr es =>
            cases es with
            | nil => simp [fuelJ, printVal]
            | cons e es2 =>
                have hlt : sizeOf e + sizeOf es2 < n := by
                  simp at hsz; omega
                have hrec := (ih (sizeOf e + sizeOf es2) hlt).2.1 e es2 le_rfl
                  cfg (d + 1)
                simp only [fuelJ, printVal, List.length_cons, List.length_append]
                omega
        | obj ms =>
            cases ms with
            | nil => simp [fuelJ, printVal]
            | cons m ms2 =>
                have hlt : sizeOf m + sizeOf ms2 < n := by
                  simp at hsz; omega
                have hrec := (ih (sizeOf m + sizeOf ms2) hlt).2.2 m ms2 le_rfl
                  cfg (d + 1)
                simp only [fuelJ, printVal, List.length_cons, List.length_append]
                omega
        | null =>
            obtain ⟨c, t, hp, h1, h2, h3, h4⟩ := printVal_head cfg d .null
            rw [hp]
            simp only [fuelJ, List.length_cons]
            omega
        | bool b =>
            obtain ⟨c, t, hp, h1, h2, h3, h4⟩ := printVal_head cfg d (.bool b)
            rw [hp]
            simp only [fuelJ, List.length_cons]
            omega
        | num k =>
            obtain ⟨c, t, hp, h1, h2, h3, h4⟩ := printVal_head cfg d (.num k)
            rw [hp]
            simp only [fuelJ, List.length_cons]
            omega
        | str s =>
            obtain ⟨c, t, hp, h1, h2, h3, h4⟩ := printVal_head cfg d (.str s)
            rw [hp]
            simp only [fuelJ, List.length_cons]
            omega
      · intro e es hsz cfg d
        cases es with
        | nil =>
            have he : fuelJ e ≤ 2 * (printVal cfg d e).length := by
              have hlt : sizeOf e < n := by simp at hsz; omega
              exact (ih (sizeOf e) hlt).1 e le_rfl cfg d
            simp only [fuelEs, printElemsTail, List.length_append,
              List.length_cons]
            omega
        | cons e2 es2 =>
            have he : fuelJ e ≤ 2 * (printVal cfg d e).length := by
              have hlt : sizeOf e < n := by simp at hsz; omega
              exact (ih (sizeOf e) hlt).1 e le_rfl cfg d
            have ht : fuelEs e2 es2 ≤ 2 * (printElemsTail cfg d e2 es2).length := by
              have hlt : sizeOf e2 + sizeOf es2 < n := by simp at hsz; omega
              exact (ih (sizeOf e2 + sizeOf es2) hlt).2.1 e2 es2 le_rfl cfg d
            simp only [fuelEs, printElemsTail, List.length_append,
              List.length_cons]
            omega
      · intro m ms hsz cfg d
        obtain ⟨k, v⟩ := m
        cases ms with
        | nil =>
            have hv : fuelJ v ≤ 2 * (printVal cfg d v).length := by
              have hlt : sizeOf v < n := by simp at hsz; omega
              exact (ih (sizeOf v) hlt).1 v le_rfl cfg d
            simp only [fuelMs, printMembsTail, printMemb, List.length_append,
              List.length_cons]
            omega
        | cons m2 ms2 =>
            have hv : fuelJ v ≤ 2 * (printVal cfg d v).length := by
              have hlt : sizeOf v < n := by simp at hsz; omega
              exact (ih (sizeOf v) hlt).1 v le_rfl cfg d
            have ht : fuelMs m2 ms2 ≤ 2 * (printMembsTail cfg d m2 ms2).length := by
              have hlt : sizeOf m2 + sizeOf ms2 < n := by simp at hsz; omega
              exact (ih (sizeOf m2 + sizeOf ms2) hlt).2.2 m2 ms2 le_rfl cfg d
            simp only [fuelMs, printMembsTail, printMemb, List.length_append,
              List.length_cons]
            omega

theorem parseTop_print (cfg : PCfg) (hnl : ∀ lvl, wsOnly (cfg.nl lvl))
    (hkvs : wsOnly cfg.kvs) (j : Json) :
    parseTop ⟨printVal cfg 0 j⟩ = some j := by
  rw [parseTop]
  have hb : fuelJ j ≤ 2 * (printVal cfg 0 j).length + 2 := by
    have := (fuel_le_len (sizeOf j)).1 j le_rfl cfg 0
    omega
  have h := (parse_print_rt cfg hnl hkvs
      (2 * (printVal cfg 0 j).length + 2)).1 j 0 [] hb trivial
  rw [List.append_nil] at h
  rw [show (⟨printVal cfg 0 j⟩ : String).data = printVal cfg 0 j from rfl, h]
  rfl

/-- The compact `json.dumps` output parses back to the same value. -/
theorem jsonDumpsCompact_roundtrip (j : Json) :
    parseTop (jsonDumpsCompact j) = some j :=
  parseTop_print compactCfg (fun lvl c hc => by simp [compactCfg] at hc)
    (fun c hc => by simp [compactCfg] at hc) j

/-- The indent-4 `json.dump` file contents parse back to the same value. -/
theorem jsonDumpPretty4_roundtrip (j : Json) :
    parseTop (jsonDumpPretty4 j) = some j := by
  refine parseTop_print prettyCfg ?_ ?_ j
  · intro lvl c hc
    simp only [prettyCfg, List.mem_cons] at hc
    rcases hc with rfl | hc
    · decide
    · rw [List.eq_of_mem_replicate hc]
      decide
  · intro c hc
    simp only [prettyCfg, List.mem_cons] at hc
    rcases hc with rfl | hc
    · decide
    · simp at hc

/-! ## Key-set bookkeeping of the scraper loop (claims C9 and C1) -/

theorem reqAttr_ok (tag : Elem) (k n : String) (h : tag.reqAttr k = .ok n) :
    tag.getAttr k = some n := by
  rw [Elem.reqAttr] at h
  cases hg : tag.getAttr k with
  | none => rw [hg] at h; exact absurd h (by simp)
  | some x => rw [hg] at h; injection h with hx; rw [hx]

theorem processTextareasGo_keys (brv : Json) :
    ∀ (tas : List Elem) (i : Nat) (st st2 : FHState),
    processTextareasGo brv tas i st = .ok st2 →
    (∀ x, x ∈ keysOf st2.data ↔ x ∈ keysOf st.data ∨
      x ∈ tas.flatMap (fun ta => (ta.getAttr "name").toList)) ∧
    (∀ x, x ∈ keysOf st2.frData ↔ x ∈ keysOf st.frData ∨
      x ∈ tas.flatMap (fun ta => (ta.getAttr "name").toList)) ∧
    ((keysOf st.data).Nodup → (keysOf st2.data).Nodup) := by
  intro tas
  induction tas with
  | nil =>
      intro i st st2 h
      simp only [processTextareasGo] at h
      injection h with h
      subst h
      exact ⟨fun x => by simp, fun x => by simp, fun hn => hn⟩
  | cons ta rest ih =>
      intro i st st2 h
      simp only [processTextareasGo] at h
      cases hv : jsonIndex brv i with
      | error e => rw [hv, except_bind_error] at h; exact absurd h (by simp)
      | ok v0 =>
          rw [hv, except_bind_ok] at h
          cases hname : ta.reqAttr "name" with
          | error e =>
              rw [hname, except_bind_error] at h
              exact absurd h (by simp)
          | ok n0 =>
              rw [hname, except_bind_ok] at h
              have hget := reqAttr_ok ta "name" n0 hname
              obtain ⟨h1, h2, h3⟩ := ih (i + 1) _ st2 h
              refine ⟨fun x => ?_, fun x => ?_, fun hn => ?_⟩
              · rw [h1 x]
                simp [mem_keysOf_upsert, hget]
                tauto
              · rw [h2 x]
                simp [mem_keysOf_upsert, hget]
                tauto
              · exact h3 (nodup_keysOf_upsert _ _ _ hn)

theorem compositeCont_keys (tag : Elem) (st st2 : FHState) (y : Json)
    (h : (tag.reqAttr "name" >>= fun name =>
      match tag.parentNextSib with
      | none =>
          Except.ok { st with data := upsert st.data name (Json.arr [y]),
                              frData := upsert st.frData name y }
      | some (Sum.inl s) =>
          if s = "" then
            Except.ok { st with data := upsert st.data name (Json.arr [y]),
                                frData := upsert st.frData name y }
          else Except.error ScrapeStructuralError.attrError
      | some (Sum.inr sib) =>
          match sib.getAttr "name" with
          | some sn =>
              Except.ok { st with
                data := upsert (upsert st.data name (Json.arr [y])) sn
                  (Json.arr [Json.str (sib.getD "value" "")]),
                frData := upsert (upsert st.frData name y) sn
                  (Json.str (sib.getD "value" "")) }
          | none =>
              Except.ok { st with data := upsert st.data name (Json.arr [y]),
                                  frData := upsert st.frData name y }) = .ok st2) :
    (∀ x, x ∈ keysOf st2.data ↔ x ∈ keysOf st.data ∨
      x ∈ (tag.getAttr "name").toList ++ sibNames tag) ∧
    (∀ x, x ∈ keysOf st2.frData ↔ x ∈ keysOf st.frData ∨
      x ∈ (tag.getAttr "name").toList ++ sibNames tag) ∧
    ((keysOf st.data).Nodup → (keysOf st2.data).Nodup) := by
  cases hname : tag.reqAttr "name" with
  | error e =>
      rw [hname, except_bind_error] at h
      exact absurd h (by simp)
  | ok n0 =>
      rw [hname, except_bind_ok] at h
      have hget := reqAttr_ok tag "name" n0 hname
      cases hsib : tag.parentNextSib with
      | none =>
          rw [hsib] at h
          dsimp only at h
          injection h with h
          subst h
          refine ⟨fun x => ?_, fun x => ?_,
            fun hn => nodup_keysOf_upsert _ _ _ hn⟩
          · simp [mem_keysOf_upsert, hget, sibNames, hsib]
            tauto
          · simp [mem_keysOf_upsert, hget, sibNames, hsib]
            tauto
      | some node =>
          cases node with
          | inl s =>
              rw [hsib] at h
              dsimp only at h
              by_cases hs : s = ""
              · rw [if_pos hs] at h
                injection h with h
                subst h
                refine ⟨fun x => ?_, fun x => ?_,
                  fun hn => nodup_keysOf_upsert _ _ _ hn⟩
                · simp [mem_keysOf_upsert, hget, sibNames, hsib]
                  tauto
                · simp [mem_keysOf_upsert, hget, sibNames, hsib]
                  tauto
              · rw [if_neg hs] at h
                exact absurd h (by simp)
          | inr sib =>
              rw [hsib] at h
              dsimp only at h
              cases hsn : sib.getAttr "name" with
              | none =>
                  rw [hsn] at h
                  dsimp only at h
                  injection h with h
                  subst h
                  refine ⟨fun x => ?_, fun x => ?_,
                    fun hn => nodup_keysOf_upsert _ _ _ hn⟩
                  · simp [mem_keysOf_upsert, hget, sibNames, hsib, hsn]
                    tauto
                  · simp [mem_keysOf_upsert, hget, sibNames, hsib, hsn]
                    tauto
              | some sn =>
                  rw [hsn] at h
                  dsimp only at h
                  injection h with h
                  subst h
                  refine ⟨fun x => ?_, fun x => ?_,
                    fun hn => nodup_keysOf_upsert _ _ _
                      (nodup_keysOf_upsert _ _ _ hn)⟩
                  · simp [mem_keysOf_upsert, hget, sibNames, hsib, hsn]
                    tauto
                  · simp [mem_keysOf_upsert, hget, sibNames, hsib, hsn]
                    tauto

theorem processComposite_keys (br : List (String × Json)) (key : String)
    (tag : Elem) (st st2 : FHState)
    (h : processComposite br key tag st = .ok st2) :
    (∀ x, x ∈ keysOf st2.data ↔ x ∈ keysOf st.data ∨
      x ∈ (tag.getAttr "name").toList ++ sibNames tag) ∧
    (∀ x, x ∈ keysOf st2.frData ↔ x ∈ keysOf st.frData ∨
      x ∈ (tag.getAttr "name").toList ++ sibNames tag) ∧
    ((keysOf st.data).Nodup → (keysOf st2.data).Nodup) := by
  simp only [processComposite] at h
  split at h
  all_goals try split at h
  all_goals
    first
      | (rw [except_bind_ok] at h
         exact compositeCont_keys tag st st2 _ h)
      | (simp only [except_bind_error] at h
         exact absurd h (by simp))
      | (cases hE : nodeGetD tag.nextSib "value" "" with
         | error e2 =>
             rw [hE, show Except.map Json.str
               (Except.error e2 : Except ScrapeStructuralError String) =
               Except.error e2 from rfl, except_bind_error] at h
             exact absurd h (by simp)
         | ok v2 =>
             rw [hE, show Except.map Json.str
               (Except.ok v2 : Except ScrapeStructuralError String) =
               Except.ok (Json.str v2) from rfl, except_bind_ok] at h
             exact compositeCont_keys tag st st2 _ h)

theorem processActionId_keys (tag : Elem) (st st2 : FHState)
    (h : processActionId tag st = .ok st2) :
    (∀ x, x ∈ keysOf st2.data ↔ x ∈ keysOf st.data ∨
      x ∈ (tag.getAttr "name").toList) ∧
    (∀ x, x ∈ keysOf st2.frData ↔ x ∈ keysOf st.frData ∨
      x ∈ (tag.getAttr "name").toList) ∧
    ((keysOf st.data).Nodup → (keysOf st2.data).Nodup) := by
  simp only [processActionId] at h
  cases hname : tag.reqAttr "name" with
  | error e => rw [hname, except_bind_error] at h; exact absurd h (by simp)
  | ok n0 =>
      rw [hname, except_bind_ok] at h
      have hget := reqAttr_ok tag "name" n0 hname
      injection h with h
      subst h
      refine ⟨fun x => ?_, fun x => ?_, fun hn => nodup_keysOf_upsert _ _ _ hn⟩
      · simp [mem_keysOf_upsert, hget]; tauto
      · simp [mem_keysOf_upsert, hget]; tauto

theorem processFormState_keys (tag : Elem) (st st2 : FHState)
    (h : processFormState tag st = .ok st2) :
    (∀ x, x ∈ keysOf st2.data ↔ x ∈ keysOf st.data ∨
      x ∈ (tag.getAttr "name").toList) ∧
    (∀ x, x ∈ keysOf st2.frData ↔ x ∈ keysOf st.frData ∨
      x ∈ (tag.getAttr "name").toList) ∧
    ((keysOf st.data).Nodup → (keysOf st2.data).Nodup) := by
  simp only [processFormState] at h
  cases hname : tag.reqAttr "name" with
  | error e => rw [hname, except_bind_error] at h; exact absurd h (by simp)
  | ok n0 =>
      rw [hname, except_bind_ok] at h
      have hget := reqAttr_ok tag "name" n0 hname
      cases hv : tag.getAttr "value" with
      | none => rw [hv] at h; exact absurd h (by simp)
      | some v =>
          rw [hv] at h
          dsimp only at h
          cases hp : parseTop v with
          | none => rw [hp] at h; exact absurd h (by simp)
          | some jv =>
              rw [hp] at h
              dsimp only at h
              injection h with h
              subst h
              refine ⟨fun x => ?_, fun x => ?_,
                fun hn => nodup_keysOf_upsert _ _ _ hn⟩
              · simp [mem_keysOf_upsert, hget]; tauto
              · simp [mem_keysOf_upsert, hget]; tauto

theorem processSubmittedBy_keys (br : List (String × Json)) (tag : Elem)
    (st st2 : FHState) (h : processSubmittedBy br tag st = .ok st2) :
    (∀ x, x ∈ keysOf st2.data ↔ x ∈ keysOf st.data ∨
      x ∈ (tag.getAttr "name").toList) ∧
    (∀ x, x ∈ keysOf st2.frData ↔ x ∈ keysOf st.frData ∨
      x ∈ (tag.getAttr "name").toList) ∧
    ((keysOf st.data).Nodup → (keysOf st2.data).Nodup) := by
  simp only [processSubmittedBy] at h
  cases hname : tag.reqAttr "name" with
  | error e => rw [hname, except_bind_error] at h; exact absurd h (by simp)
  | ok n0 =>
      rw [hname, except_bind_ok] at h
      have hget := reqAttr_ok tag "name" n0 hname
      injection h with h
      subst h
      refine ⟨fun x => ?_, fun x => ?_, fun hn => nodup_keysOf_upsert _ _ _ hn⟩
      · simp [mem_keysOf_upsert, hget]; tauto
      · simp [mem_keysOf_upsert, hget]; tauto

theorem processHeader_keys (tag : Elem) (st st2 : FHState)
    (h : processHeader tag st = .ok st2) :
    (∀ x, x ∈ keysOf st2.data ↔ x ∈ keysOf st.data) ∧
    (∀ x, x ∈ keysOf st2.frData ↔ x ∈ keysOf st.frData ∨ x ∈ headerNames) ∧
    ((keysOf st.data).Nodup → (keysOf st2.data).Nodup) := by
  simp only [processHeader] at h
  cases hg : headerGuid tag with
  | error e => rw [hg, except_bind_error] at h; exact absurd h (by simp)
  | ok guid =>
      rw [hg, except_bind_ok] at h
      simp only [set_new_url] at h
      cases ha : tag.getAttr "action" with
      | none => rw [ha] at h; exact absurd h (by simp)
      | some action =>
          rw [ha] at h
          dsimp only at h
          injection h with h
          subst h
          refine ⟨fun x => by simp, fun x => ?_, fun hn => hn⟩
          simp [mem_keysOf_upsert, headerNames]
          tauto

theorem processDefault_keys (key : String) (tag : Elem) (st st2 : FHState)
    (h : processDefault key tag st = .ok st2) :
    (∀ x, x ∈ keysOf st2.data ↔ x ∈ keysOf st.data ∨
      x ∈ (tag.getAttr "name").toList) ∧
    (∀ x, x ∈ keysOf st2.frData ↔ x ∈ keysOf st.frData ∨
      x ∈ (if key ∈ snapshotExcludedKeys then []
           else (tag.getAttr "name").toList)) ∧
    ((keysOf st.data).Nodup → (keysOf st2.data).Nodup) := by
  simp only [processDefault] at h
  cases hname : tag.reqAttr "name" with
  | error e => rw [hname, except_bind_error] at h; exact absurd h (by simp)
  | ok n0 =>
      rw [hname, except_bind_ok] at h
      have hget := reqAttr_ok tag "name" n0 hname
      injection h with h
      subst h
      refine ⟨fun x => ?_, fun x => ?_, fun hn => nodup_keysOf_upsert _ _ _ hn⟩
      · simp [mem_keysOf_upsert, hget]; tauto
      · by_cases hexc : key ∈ snapshotExcludedKeys
        · simp [hexc]
        · simp [hexc, mem_keysOf_upsert, hget]
          tauto

theorem processKey_keys (doc : Doc) (br : List (String × Json))
    (st st2 : FHState) (e : String × FieldParam)
    (h : processKey doc br st e = .ok st2) :
    (∀ x, x ∈ keysOf st2.data ↔ x ∈ keysOf st.data ∨ x ∈ wireNames doc e) ∧
    (∀ x, x ∈ keysOf st2.frData ↔ x ∈ keysOf st.frData ∨ x ∈ snapNames doc e) ∧
    ((keysOf st.data).Nodup → (keysOf st2.data).Nodup) := by
  obtain ⟨key, p⟩ := e
  simp only [processKey] at h
  simp only [wireNames, snapNames]
  cases hfind : doc.find (get_attrs (key, p).2) with
  | none =>
      rw [hfind] at h
      dsimp only at h
      injection h with h
      subst h
      exact ⟨fun x => by simp, fun x => by simp, fun hn => hn⟩
  | some tag =>
      rw [hfind] at h
      dsimp only at h
      by_cases hck : key ∈ compositeKeys
      · rw [if_pos hck] at h
        simp only [if_pos hck]
        exact processComposite_keys br key tag st st2 h
      · rw [if_neg hck] at h
        simp only [if_neg hck]
        by_cases htx : key = "upTextareaControl"
        · rw [if_pos htx] at h
          simp only [if_pos htx]
          simp only [processTextareas] at h
          cases hbr : lookupA br "upTextareaControl" with
          | none => rw [hbr] at h; exact absurd h (by simp)
          | some brv =>
              rw [hbr] at h
              exact processTextareasGo_keys brv _ 0 st st2 h
        · rw [if_neg htx] at h
          simp only [if_neg htx]
          by_cases hac : key = "fr_ActionId"
          · rw [if_pos hac] at h
            have hk3 : ¬ key = "Header_Container_AppMain" := by
              rw [hac]; decide
            have hk4 : ¬ key ∈ snapshotExcludedKeys := by
              rw [hac]; decide
            simp only [if_neg hk3, if_neg hk4]
            exact processActionId_keys tag st st2 h
          · rw [if_neg hac] at h
            by_cases hfs : key = "fr_formState"
            · rw [if_pos hfs] at h
              have hk3 : ¬ key = "Header_Container_AppMain" := by
                rw [hfs]; decide
              have hk4 : ¬ key ∈ snapshotExcludedKeys := by
                rw [hfs]; decide
              simp only [if_neg hk3, if_neg hk4]
              exact processFormState_keys tag st st2 h
            · rw [if_neg hfs] at h
              by_cases hsb : key = "Submitted By"
              · rw [if_pos hsb] at h
                have hk3 : ¬ key = "Header_Container_AppMain" := by
                  rw [hsb]; decide
                have hk4 : ¬ key ∈ snapshotExcludedKeys := by
                  rw [hsb]; decide
                simp only [if_neg hk3, if_neg hk4]
                exact processSubmittedBy_keys br tag st st2 h
              · rw [if_neg hsb] at h
                by_cases hhd : key = "Header_Container_AppMain"
                · rw [if_pos hhd] at h
                  simp only [if_pos hhd]
                  obtain ⟨h1, h2, h3⟩ := processHeader_keys tag st st2 h
                  exact ⟨fun x => by rw [h1 x]; simp, h2, h3⟩
                · rw [if_neg hhd] at h
                  simp only [if_neg hhd]
                  exact processDefault_keys key tag st st2 h

theorem foldlM_processKey_keys (doc : Doc) (br : List (String × Json)) :
    ∀ (dps : List (String × FieldParam)) (st st2 : FHState),
    List.foldlM (processKey doc br) st dps = .ok st2 →
    (∀ x, x ∈ keysOf st2.data ↔ x ∈ keysOf st.data ∨
      ∃ e ∈ dps, x ∈ wireNames doc e) ∧
    (∀ x, x ∈ keysOf st2.frData ↔ x ∈ keysOf st.frData ∨
      ∃ e ∈ dps, x ∈ snapNames doc e) ∧
    ((keysOf st.data).Nodup → (keysOf st2.data).Nodup) := by
  intro dps
  induction dps with
  | nil =>
      intro st st2 h
      simp only [List.foldlM_nil] at h
      injection h with h
      subst h
      exact ⟨fun x => by simp, fun x => by simp, fun hn => hn⟩
  | cons e rest ih =>
      intro st st2 h
      rw [List.foldlM_cons] at h
      cases hstep : processKey doc br st e with
      | error err => rw [hstep, except_bind_error] at h; exact absurd h (by simp)
      | ok st1 =>
          rw [hstep, except_bind_ok] at h
          obtain ⟨s1, s2, s3⟩ := processKey_keys doc br st st1 e hstep
          obtain ⟨i1, i2, i3⟩ := ih st1 st2 h
          refine ⟨fun x => ?_, fun x => ?_, fun hn => i3 (s3 hn)⟩
          · rw [i1 x, s1 x]
            simp only [List.mem_cons]
            constructor
            · rintro ((hx | hx) | ⟨e2, he2, hx⟩)
              · exact Or.inl hx
              · exact Or.inr ⟨e, Or.inl rfl, hx⟩
              · exact Or.inr ⟨e2, Or.inr he2, hx⟩
            · rintro (hx | ⟨e2, (rfl | he2), hx⟩)
              · exact Or.inl (Or.inl hx)
              · exact Or.inl (Or.inr hx)
              · exact Or.inr ⟨e2, he2, hx⟩
          · rw [i2 x, s2 x]
            simp only [List.mem_cons]
            constructor
            · rintro ((hx | hx) | ⟨e2, he2, hx⟩)
              · exact Or.inl hx
              · exact Or.inr ⟨e, Or.inl rfl, hx⟩
              · exact Or.inr ⟨e2, Or.inr he2, hx⟩
            · rintro (hx | ⟨e2, (rfl | he2), hx⟩)
              · exact Or.inl (Or.inl hx)
              · exact Or.inl (Or.inr hx)
              · exact Or.inr ⟨e2, he2, hx⟩

theorem fetch_keys (br : List (String × Json)) (dps : List (String × FieldParam))
    (doc : Doc) (path : String) (query : List (String × List String))
    (st : FHState)
    (h : fetch_dynamic_values br dps doc path query = .ok st) :
    (∀ x, x ∈ keysOf st.data ↔ x = "fr_formData" ∨
      ∃ e ∈ dps, x ∈ wireNames doc e) ∧
    (∀ x, x ∈ keysOf st.frData ↔ ∃ e ∈ dps, x ∈ snapNames doc e) ∧
    (keysOf st.data).Nodup ∧
    lookupA st.data "fr_formData" =
      some (.arr [.str (jsonDumpsCompact (.arr [.obj st.frData]))]) := by
  simp only [fetch_dynamic_values] at h
  cases hfold : List.foldlM (processKey doc br)
      (⟨path, query, [], [], []⟩ : FHState) dps with
  | error err => rw [hfold, except_bind_error] at h; exact absurd h (by simp)
  | ok stf =>
      rw [hfold, except_bind_ok] at h
      injection h with h
      subst h
      obtain ⟨f1, f2, f3⟩ := foldlM_processKey_keys doc br dps _ stf hfold
      refine ⟨fun x => ?_, fun x => ?_, ?_, lookupA_upsert_self _ _ _⟩
      · simp only [mem_keysOf_upsert]
        rw [f1 x]
        simp [keysOf]
      · rw [f2 x]
        simp [keysOf]
      · exact nodup_keysOf_upsert _ _ _ (f3 (by simp [keysOf]))

/-! ## Payload side-file round-trip: claim C9 -/

/-- C9: the payload of a successful scrape, written to `postdata.json` with
`json.dump(..., ensure_ascii=False, indent=4)` and reloaded with
`json.load`, is structurally equal to the in-memory payload: the parse of
the file contents returns exactly the same object (and its key set is
duplicate-free, so the reload collapses nothing). -/
theorem postdata_roundtrip (br : List (String × Json))
    (dps : List (String × FieldParam)) (doc : Doc) (path : String)
    (query : List (String × List String)) (st : FHState)
    (h : fetch_dynamic_values br dps doc path query = .ok st) :
    (keysOf st.data).Nodup ∧
    parseTop (jsonDumpPretty4 (.obj st.data)) = some (.obj st.data) :=
  ⟨(fetch_keys br dps doc path query st h).2.2.1,
   jsonDumpPretty4_roundtrip _⟩

/-- Witness for C9 at a one-field document. -/
theorem postdata_roundtrip_witness :
    (keysOf ([("b", Json.arr [Json.str "v"]),
      ("fr_formData", Json.arr [Json.str
        (jsonDumpsCompact (.arr [.obj [("b", Json.str "v")]]))])] :
      List (String × Json))).Nodup ∧
    parseTop (jsonDumpPretty4 (.obj [("b", Json.arr [Json.str "v"]),
      ("fr_formData", Json.arr [Json.str
        (jsonDumpsCompact (.arr [.obj [("b", Json.str "v")]]))])])) =
      some (.obj [("b", Json.arr [Json.str "v"]),
        ("fr_formData", Json.arr [Json.str
          (jsonDumpsCompact (.arr [.obj [("b", Json.str "v")]]))])]) :=
  postdata_roundtrip [] [("other", ⟨["id"], ["bfield"]⟩)]
    ⟨fun _ => some (.mk [("name", "b"), ("value", "v")] none [] none none),
     fun _ => [], []⟩ "/p" []
    ⟨"/p", [], [("b", Json.arr [Json.str "v"]),
      ("fr_formData", Json.arr [Json.str
        (jsonDumpsCompact (.arr [.obj [("b", Json.str "v")]]))])],
     [("b", Json.str "v")], []⟩ rfl

/-! ## Snapshot key characterization: claim C1 -/

/-- Away from the header/container key and the two excluded keys, an entry
assigns the same names to the snapshot as to the wire payload. -/
theorem snapNames_eq_wireNames (doc : Doc) (e : String × FieldParam)
    (h1 : e.1 ≠ "Header_Container_AppMain")
    (h2 : e.1 ∉ snapshotExcludedKeys) :
    snapNames doc e = wireNames doc e := by
  simp only [snapNames, wireNames]
  cases doc.find (get_attrs e.2) with
  | none => rfl
  | some tag =>
      by_cases hck : e.1 ∈ compositeKeys
      · simp [hck]
      · simp only [if_neg hck]
        by_cases htx : e.1 = "upTextareaControl"
        · simp [htx]
        · simp only [if_neg htx, if_neg h1, if_neg h2]

/-- The header/container key assigns no wire-payload name. -/
theorem wireNames_header (doc : Doc) (e : String × FieldParam)
    (h : e.1 = "Header_Container_AppMain") : wireNames doc e = [] := by
  obtain ⟨key, p⟩ := e
  simp only at h
  subst h
  unfold wireNames
  cases doc.find (get_attrs ("Header_Container_AppMain", p).2) with
  | none => rfl
  | some tag =>
      dsimp only
      simp [compositeKeys]

/-- The header/container key assigns the three identifier names to the
snapshot exactly when it matched an element. -/
theorem snapNames_header (doc : Doc) (e : String × FieldParam)
    (h : e.1 = "Header_Container_AppMain") :
    snapNames doc e =
      if (doc.find (get_attrs e.2)).isSome then headerNames else [] := by
  obtain ⟨key, p⟩ := e
  simp only at h
  subst h
  unfold snapNames
  cases doc.find (get_attrs ("Header_Container_AppMain", p).2) with
  | none => rfl
  | some tag =>
      dsimp only
      simp [compositeKeys]

/-- The two excluded keys assign no snapshot name. -/
theorem snapNames_excluded (doc : Doc) (e : String × FieldParam)
    (h : e.1 ∈ snapshotExcludedKeys) : snapNames doc e = [] := by
  obtain ⟨key, p⟩ := e
  have h2 : key = "CSRFToken" ∨ key = "fr_fupUniqueId" := by
    simpa [snapshotExcludedKeys] using h
  unfold snapNames
  cases doc.find (get_attrs (key, p).2) with
  | none => rfl
  | some tag =>
      dsimp only
      rcases h2 with rfl | rfl <;>
        simp [compositeKeys, snapshotExcludedKeys]

/-- Wire names of an excluded entry land in `exclEntryNames`. -/
theorem mem_exclEntryNames (doc : Doc) (dps : List (String × FieldParam))
    (e : String × FieldParam) (x : String) (he : e ∈ dps)
    (hexc : e.1 ∈ snapshotExcludedKeys) (hx : x ∈ wireNames doc e) :
    x ∈ exclEntryNames doc dps := by
  simp only [exclEntryNames, List.mem_flatMap, List.mem_filter,
    decide_eq_true_eq]
  exact ⟨e, ⟨he, hexc⟩, hx⟩

/-- C1 (amended): on a successful scrape whose excluded wire names and
`fr_formData` do not collide with any snapshot name, the JSON string stored
under the synthetic payload key `fr_formData` parses back to exactly the
snapshot, and a key is in the snapshot iff it is a wire-payload key other
than `fr_formData` and not contributed by the two excluded keys
`CSRFToken`/`fr_fupUniqueId` (which stay in the wire payload), or it is one
of the THREE header-field-derived keys `fr_formGuid`/`fr_formName`/
`fr_uniqueId`, present whenever `Header_Container_AppMain` matched an
element. -/
theorem fr_formData_snapshot_keys (br : List (String × Json))
    (dps : List (String × FieldParam)) (doc : Doc) (path : String)
    (query : List (String × List String)) (st : FHState)
    (h : fetch_dynamic_values br dps doc path query = .ok st)
    (hexcl : ∀ x ∈ exclEntryNames doc dps, ∀ e ∈ dps, x ∉ snapNames doc e)
    (hffd : ∀ e ∈ dps, "fr_formData" ∉ snapNames doc e) :
    lookupA st.data "fr_formData" =
      some (.arr [.str (jsonDumpsCompact (.arr [.obj st.frData]))]) ∧
    parseTop (jsonDumpsCompact (.arr [.obj st.frData])) =
      some (.arr [.obj st.frData]) ∧
    ∀ x, x ∈ keysOf st.frData ↔
      ((x ∈ keysOf st.data ∧ x ≠ "fr_formData" ∧
          x ∉ exclEntryNames doc dps) ∨
        (headerMatched doc dps ∧ x ∈ headerNames)) := by
  obtain ⟨d1, d2, d3, d4⟩ := fetch_keys br dps doc path query st h
  refine ⟨d4, jsonDumpsCompact_roundtrip _, fun x => ?_⟩
  constructor
  · intro hx
    obtain ⟨e, he, hxe⟩ := (d2 x).1 hx
    by_cases hhd : e.1 = "Header_Container_AppMain"
    · rw [snapNames_header doc e hhd] at hxe
      cases hfs : (doc.find (get_attrs e.2)).isSome with
      | false => rw [hfs] at hxe; simp at hxe
      | true =>
          rw [hfs] at hxe
          simp only [if_pos rfl] at hxe
          exact Or.inr ⟨⟨e, he, hhd, hfs⟩, hxe⟩
    · by_cases hex2 : e.1 ∈ snapshotExcludedKeys
      · rw [snapNames_excluded doc e hex2] at hxe
        simp at hxe
      · refine Or.inl ⟨?_, ?_, ?_⟩
        · rw [d1 x]
          refine Or.inr ⟨e, he, ?_⟩
          rw [← snapNames_eq_wireNames doc e hhd hex2]
          exact hxe
        · rintro rfl
          exact hffd e he hxe
        · intro hq
          exact hexcl x hq e he hxe
  · rintro (⟨hdata, hne, hnexcl⟩ | ⟨⟨e, he, hhd, hfs⟩, hxh⟩)
    · rcases (d1 x).1 hdata with rfl | ⟨e, he, hxe⟩
      · exact absurd rfl hne
      · by_cases hhd : e.1 = "Header_Container_AppMain"
        · rw [wireNames_header doc e hhd] at hxe
          simp at hxe
        · by_cases hex2 : e.1 ∈ snapshotExcludedKeys
          · exact absurd (mem_exclEntryNames doc dps e x he hex2 hxe) hnexcl
          · refine (d2 x).2 ⟨e, he, ?_⟩
            rw [snapNames_eq_wireNames doc e hhd hex2]
            exact hxe
    · refine (d2 x).2 ⟨e, he, ?_⟩
      rw [snapNames_header doc e hhd, hfs]
      simpa using hxh

/-- C1 counterexample: on `headerDemoDoc` the matched header contributes
THREE snapshot keys, `fr_formGuid`, `fr_formName` and `fr_uniqueId` — the
claim's count of two (and its unprefixed names) is wrong. -/
theorem fr_formData_two_header_keys_counterexample :
    scrapeSnapshotKeys
        (fetch_dynamic_values [] headerDemoParams headerDemoDoc "/p" []) =
      some ["b", "fr_formGuid", "fr_formName", "fr_uniqueId"] ∧
    scrapeDataKeys
        (fetch_dynamic_values [] headerDemoParams headerDemoDoc "/p" []) =
      some ["b", "fr_formData"] ∧
    (["fr_formGuid", "fr_formName", "fr_uniqueId"] : List String).length
      = 3 :=
  ⟨rfl, rfl, rfl⟩

/-- Witness for the amended C1 on `snapDemoDoc`: the excluded `csrf` name
stays in the wire payload and off the snapshot, and `fr_formGuid` enters
the snapshot through the matched header. -/
theorem fr_formData_snapshot_keys_witness :
    lookupA snapDemoState.data "fr_formData" =
      some (.arr [.str
        (jsonDumpsCompact (.arr [.obj snapDemoState.frData]))]) ∧
    parseTop (jsonDumpsCompact (.arr [.obj snapDemoState.frData])) =
      some (.arr [.obj snapDemoState.frData]) ∧
    ("fr_formGuid" ∈ keysOf snapDemoState.frData ↔
      (("fr_formGuid" ∈ keysOf snapDemoState.data ∧
          "fr_formGuid" ≠ "fr_formData" ∧
          "fr_formGuid" ∉ exclEntryNames snapDemoDoc snapDemoParams) ∨
        (headerMatched snapDemoDoc snapDemoParams ∧
          "fr_formGuid" ∈ headerNames))) :=
  have h := fr_formData_snapshot_keys [] snapDemoParams snapDemoDoc "/p" []
    snapDemoState rfl (by decide) (by decide)
  ⟨h.1, h.2.1, h.2.2 "fr_formGuid"⟩
